import Mathlib

/-!
Verification of the patch-file MCP server's core logic: the
search/replace block parser and validator, the patch applicator, the
fuzzy-match hint generator, the failed-edit tracker, the mypy failure
streak, and the QA pipeline control flow.

Text is modelled as `List Char`.  The Python string primitives used by
the server (`str.count`, `str.replace`, `str.split`, `str.splitlines`,
`str.strip`, `str.find`, `in`) are embedded as structurally recursive
functions with Python's semantics (non-overlapping left-to-right
matching, etc.).
-/

namespace PatchMcp

/-- Characters treated as whitespace by Python's `str.strip()` (the
ASCII whitespace characters together with the unicode space characters
relevant to text handled by the server). -/
def isPySpace (c : Char) : Bool :=
  c = ' ' || c = '\t' || c = '\n' || c = '\r' ||
  c = Char.ofNat 0x0b || c = Char.ofNat 0x0c ||
  c = Char.ofNat 0x1c || c = Char.ofNat 0x1d || c = Char.ofNat 0x1e ||
  c = Char.ofNat 0x1f || c = Char.ofNat 0x85 || c = Char.ofNat 0xa0 ||
  c = Char.ofNat 0x1680 ||
  (0x2000 ≤ c.toNat && c.toNat ≤ 0x200a) ||
  c = Char.ofNat 0x2028 || c = Char.ofNat 0x2029 ||
  c = Char.ofNat 0x202f || c = Char.ofNat 0x205f || c = Char.ofNat 0x3000

/-- Python `str.strip()`: drop leading and trailing whitespace. -/
def pyStrip (s : List Char) : List Char :=
  ((s.dropWhile isPySpace).reverse.dropWhile isPySpace).reverse

/-- Line-boundary characters of Python `str.splitlines()` (besides the
two-character boundary `\r\n`, which is handled separately). -/
def isLineBreakChar (c : Char) : Bool :=
  c = '\n' || c = '\r' ||
  c = Char.ofNat 0x0b || c = Char.ofNat 0x0c ||
  c = Char.ofNat 0x1c || c = Char.ofNat 0x1d || c = Char.ofNat 0x1e ||
  c = Char.ofNat 0x85 || c = Char.ofNat 0x2028 || c = Char.ofNat 0x2029

/-- Worker for `pySplitlines`.  `cur` holds the current line reversed;
a `\r` immediately followed by `\n` is one boundary. -/
def slAux : List Char → List Char → List (List Char)
  | cur, [] => if cur = [] then [] else [cur.reverse]
  | cur, c :: rest =>
    if c = '\r' then
      match rest with
      | [] => cur.reverse :: slAux [] []
      | d :: rest2 =>
        if d = '\n' then cur.reverse :: slAux [] rest2
        else cur.reverse :: slAux [] (d :: rest2)
    else if isLineBreakChar c then cur.reverse :: slAux [] rest
    else slAux (c :: cur) rest

/-- Python `str.splitlines()` (without keepends). -/
def pySplitlines (s : List Char) : List (List Char) := slAux [] s

/-- Python `sep in s` (substring containment). -/
def pyContains (needle : List Char) : List Char → Bool
  | [] => needle.isPrefixOf []
  | c :: rest => needle.isPrefixOf (c :: rest) || pyContains needle rest

/-- Worker for `pyFind`, carrying the current index. -/
def pyFindAux (needle : List Char) : List Char → Int → Int
  | [], idx => if needle.isEmpty then idx else -1
  | c :: rest, idx =>
    if needle.isPrefixOf (c :: rest) then idx else pyFindAux needle rest (idx + 1)

/-- Python `s.find(needle)`: index of the first occurrence, `-1` if none. -/
def pyFind (needle hay : List Char) : Int := pyFindAux needle hay 0

/-- Worker for `pyCount`: scans left to right; `skip` is the number of
characters still belonging to the previously matched occurrence, so that
counting is non-overlapping as in Python. -/
def countAux (needle : List Char) : List Char → Nat → Nat
  | [], _ => 0
  | c :: rest, 0 =>
    if needle.isPrefixOf (c :: rest) then 1 + countAux needle rest (needle.length - 1)
    else countAux needle rest 0
  | _ :: rest, k + 1 => countAux needle rest k

/-- Python `s.count(needle)`: non-overlapping occurrences; an empty
needle counts `len(s) + 1` occurrences. -/
def pyCount (needle hay : List Char) : Nat :=
  if needle = [] then hay.length + 1 else countAux needle hay 0

/-- Worker for `pyReplace` (nonempty needle), same scanning discipline
as `countAux`; characters consumed while `skip > 0` belong to the
matched occurrence and are not emitted. -/
def replAux (needle repl : List Char) : List Char → Nat → List Char
  | [], _ => []
  | c :: rest, 0 =>
    if needle.isPrefixOf (c :: rest) then
      repl ++ replAux needle repl rest (needle.length - 1)
    else c :: replAux needle repl rest 0
  | _ :: rest, k + 1 => replAux needle repl rest k

/-- Python `s.replace(needle, repl)` for a nonempty needle; for the
empty needle Python interleaves `repl` between all characters. -/
def pyReplace (needle repl hay : List Char) : List Char :=
  if needle = [] then repl ++ (hay.map (fun c => c :: repl)).flatten
  else replAux needle repl hay 0

/-- First occurrence split: `some (before, after)` when `sep` occurs,
where `before` is the text before the first occurrence and `after` the
text following it. -/
def splitOnce (sep : List Char) : List Char → Option (List Char × List Char)
  | [] => none
  | c :: rest =>
    if sep.isPrefixOf (c :: rest) then some ([], List.drop (sep.length - 1) rest)
    else
      match splitOnce sep rest with
      | none => none
      | some p => some (c :: p.1, p.2)

/-- Worker for `pySplit`: `cur` is the current piece reversed, `k` the
number of characters of a matched separator still to be consumed. -/
def splitAux (sep : List Char) : List Char → List Char → Nat → List (List Char)
  | cur, [], _ => [cur.reverse]
  | cur, c :: rest, 0 =>
    if sep.isPrefixOf (c :: rest) then cur.reverse :: splitAux sep [] rest (sep.length - 1)
    else splitAux sep (c :: cur) rest 0
  | cur, _ :: rest, k + 1 => splitAux sep cur rest k

/-- Python `s.split(sep)` for a nonempty separator (Python raises on an
empty separator; the server only splits on marker literals). -/
def pySplit (sep hay : List Char) : List (List Char) :=
  if sep = [] then [hay] else splitAux sep [] hay 0

/-- Python `s.split(c)` on a single character, keeping empty pieces. -/
def splitChar (sep : Char) : List Char → List (List Char)
  | [] => [[]]
  | c :: rest =>
    match splitChar sep rest with
    | [] => [[c]]
    | h :: t => if c = sep then [] :: h :: t else (c :: h) :: t

/-- Decimal rendering of a natural number as characters. -/
def natStr (n : Nat) : List Char := (toString n).data

instance instDecEqExcept {ε α : Type} [DecidableEq ε] [DecidableEq α] :
    DecidableEq (Except ε α) := fun a b =>
  match a, b with
  | .error e1, .error e2 =>
    if h : e1 = e2 then .isTrue (by rw [h]) else .isFalse (fun hh => by cases hh; exact h rfl)
  | .error _, .ok _ => .isFalse (fun hh => by cases hh)
  | .ok _, .error _ => .isFalse (fun hh => by cases hh)
  | .ok x, .ok y =>
    if h : x = y then .isTrue (by rw [h]) else .isFalse (fun hh => by cases hh; exact h rfl)

/-! ## Block parser and validator (`validate_block_integrity`,
`parse_search_replace_blocks` in `server.py`) -/

/-- The literal `"<<<<<<< SEARCH"`. -/
def searchMarker : List Char := "<<<<<<< SEARCH".data

/-- The literal `"======="`. -/
def sepMarker : List Char := "=======".data

/-- The literal `">>>>>>> REPLACE"`. -/
def replMarker : List Char := ">>>>>>> REPLACE".data

/-- The regex fragment `"<<<<<<< SEARCH\n"`. -/
def searchNl : List Char := searchMarker ++ ['\n']

/-- The regex fragment `"\n=======\n"`. -/
def nlSepNl : List Char := '\n' :: sepMarker ++ ['\n']

/-- The regex fragment `"\n>>>>>>> REPLACE"`. -/
def nlRepl : List Char := '\n' :: replMarker

/-- Errors raised by `validate_block_integrity`: unbalanced marker
counts, an incorrect marker triple at a position, or a nested SEARCH
marker in a block. -/
inductive ValError where
  | unbalanced (search sep repl : Nat)
  | badSequence (pos : Nat)
  | nested (blockIdx : Nat)
  deriving DecidableEq, Repr

/-- The stripped marker lines of the patch, in document order
(`for line in patch_content.splitlines(): line = line.strip(); ...`). -/
def markerLines (patch : List Char) : List (List Char) :=
  ((pySplitlines patch).map pyStrip).filter
    (fun l => l = searchMarker || l = sepMarker || l = replMarker)

/-- The `for i in range(0, len(markers), 3)` loop of
`validate_block_integrity`: checks each complete triple of marker lines
against `[SEARCH, SEPARATOR, REPLACE]`, ignoring an incomplete tail. -/
def seqCheck : Nat → List (List Char) → Option Nat
  | _, [] => none
  | _, [_] => none
  | _, [_, _] => none
  | i, a :: b :: c :: rest =>
    if a = searchMarker ∧ b = sepMarker ∧ c = replMarker then seqCheck (i + 3) rest
    else some i

/-- The nested-marker scan over `patch_content.split("<<<<<<< SEARCH")[1:]`
(`for i, section in enumerate(sections[1:], 1)`). -/
def nestedCheck : Nat → List (List Char) → Option Nat
  | _, [] => none
  | i, s :: rest =>
    if pyContains searchMarker s && (pyFind replMarker s > pyFind searchMarker s) then some i
    else nestedCheck (i + 1) rest

/-- `validate_block_integrity`: marker balance, marker sequence, and the
nested-marker check, in source order. -/
def validate_block_integrity (patch : List Char) : Except ValError Unit :=
  let sc := pyCount searchMarker patch
  let pc := pyCount sepMarker patch
  let rc := pyCount replMarker patch
  if ¬(sc = pc ∧ pc = rc) then .error (.unbalanced sc pc rc)
  else
    match seqCheck 0 (markerLines patch) with
    | some i => .error (.badSequence i)
    | none =>
      match nestedCheck 1 (List.drop 1 (pySplit searchMarker patch)) with
      | some i => .error (.nested i)
      | none => .ok ()

/-- One search/replace pair. -/
abbrev Block := List Char × List Char

theorem splitOnce_some_length {sep : List Char} :
    ∀ {hay : List Char} {p}, splitOnce sep hay = some p → p.2.length < hay.length := by
  intro hay
  induction hay with
  | nil => intro p h; simp [splitOnce] at h
  | cons c rest ih =>
    intro p h
    simp only [splitOnce] at h
    by_cases hp : sep.isPrefixOf (c :: rest)
    · simp [hp] at h
      subst h
      simp
      have := List.length_drop (sep.length - 1) rest
      omega
    · simp [hp] at h
      rcases h2 : splitOnce sep rest with _ | q
      · rw [h2] at h; simp at h
      · rw [h2] at h; simp at h
        have := ih h2
        subst h
        simp at this ⊢
        omega

/-- Worker for `regexBlocks`; `fuel` bounds the number of scanning
steps (each extracted match strictly shortens the remaining text, so
`hay.length` steps always suffice). -/
def regexBlocksAux : Nat → List Char → List Block
  | 0, _ => []
  | fuel + 1, hay =>
    match splitOnce searchNl hay with
    | none => []
    | some p1 =>
      match splitOnce nlSepNl p1.2 with
      | none => []
      | some p2 =>
        match splitOnce nlRepl p2.2 with
        | none => []
        | some p3 => (p2.1, p3.1) :: regexBlocksAux fuel p3.2

/-- The matches of the regex
`"<<<<<<< SEARCH\n(.*?)\n=======\n(.*?)\n>>>>>>> REPLACE"` under
`re.findall` with `DOTALL`: repeatedly take the next `"<<<<<<< SEARCH\n"`,
the first following `"\n=======\n"`, and the first following
`"\n>>>>>>> REPLACE"` (lazy groups, leftmost matches, non-overlapping
scanning resuming after each match). -/
def regexBlocks (hay : List Char) : List Block :=
  regexBlocksAux (hay.length + 1) hay

/-- Errors raised by `parse_search_replace_blocks` beyond validation. -/
inductive ParseError where
  | validation (e : ValError)
  | missingSeparator
  | missingReplace
  | markerInSearch (blockIdx : Nat)
  | markerInReplace (blockIdx : Nat)
  | noBlocks
  deriving DecidableEq, Repr

/-- Whether extracted text embeds any of the three marker literals. -/
def containsAnyMarker (t : List Char) : Bool :=
  pyContains searchMarker t || pyContains sepMarker t || pyContains replMarker t

/-- The post-extraction marker check over the regex matches
(`for i, (search_text, replace_text) in enumerate(matches)`). -/
def checkBlocks : Nat → List Block → Except ParseError (List Block)
  | _, [] => .ok []
  | i, (s, r) :: rest =>
    if containsAnyMarker s then .error (.markerInSearch i)
    else if containsAnyMarker r then .error (.markerInReplace i)
    else
      match checkBlocks (i + 1) rest with
      | .error e => .error e
      | .ok bs => .ok ((s, r) :: bs)

/-- Split a list of lines at the first line satisfying `p`, removing
that line (models the `for j in range(...)` searches of the fallback
parser). -/
def splitAtFirst (p : List Char → Bool) : List (List Char) → Option (List (List Char) × List (List Char))
  | [] => none
  | x :: xs =>
    if p x then some ([], xs)
    else
      match splitAtFirst p xs with
      | none => none
      | some q => some (x :: q.1, q.2)

theorem splitAtFirst_some_length {p : List Char → Bool} :
    ∀ {ls : List (List Char)} {q}, splitAtFirst p ls = some q → q.2.length < ls.length := by
  intro ls
  induction ls with
  | nil => intro q h; simp [splitAtFirst] at h
  | cons x xs ih =>
    intro q h
    simp only [splitAtFirst] at h
    by_cases hp : p x
    · simp [hp] at h
      subst h; simp
    · simp [hp] at h
      rcases h2 : splitAtFirst p xs with _ | q'
      · rw [h2] at h; simp at h
      · rw [h2] at h; simp at h
        have := ih h2
        subst h
        simp at this ⊢
        omega

/-- Lines joined with `"\n"` (Python `"\n".join(...)`). -/
def joinNl (ls : List (List Char)) : List Char := List.intercalate ['\n'] ls

/-- Worker for `fbScan`; `fuel` bounds the number of scanning steps
(each step strictly shortens the remaining line list, so the number of
lines always suffices). -/
def fbScanAux : Nat → Nat → List (List Char) → Except ParseError (List Block)
  | 0, _, _ => .ok []
  | _, _, [] => .ok []
  | fuel + 1, i, l :: rest =>
    if l = searchMarker then
      match splitAtFirst (fun x => x = sepMarker) rest with
      | none => .error .missingSeparator
      | some p1 =>
        match splitAtFirst (fun x => x = replMarker) p1.2 with
        | none => .error .missingReplace
        | some p2 =>
          let st := joinNl p1.1
          let rt := joinNl p2.1
          if containsAnyMarker st then .error (.markerInSearch i)
          else if containsAnyMarker rt then .error (.markerInReplace i)
          else
            match fbScanAux fuel (i + 1) p2.2 with
            | .error e => .error e
            | .ok bs => .ok ((st, rt) :: bs)
    else fbScanAux fuel i rest

/-- The manual line-scan fallback of `parse_search_replace_blocks`:
walk the `splitlines()` lines, and at each line equal to the SEARCH
marker take the text up to the first separator line and then up to the
first REPLACE line.  `i` is `len(blocks) + 1`, the 1-based index used in
error messages. -/
def fbScan (i : Nat) (ls : List (List Char)) : Except ParseError (List Block) :=
  fbScanAux (ls.length + 1) i ls

/-- `parse_search_replace_blocks`: validate, extract via the regex, and
if the regex finds nothing fall back to the manual line scan; both paths
reject extracted text that embeds a marker, and finding no blocks at all
is an error. -/
def parse_search_replace_blocks (patch : List Char) : Except ParseError (List Block) :=
  match validate_block_integrity patch with
  | .error e => .error (.validation e)
  | .ok _ =>
    let ms := regexBlocks patch
    if ms.isEmpty then
      match fbScan 1 (pySplitlines patch) with
      | .error e => .error e
      | .ok bs => if bs.isEmpty then .error .noBlocks else .ok bs
    else checkBlocks 1 ms

/-! ## Fuzzy hint generator (`normalize_text_for_fuzzy_matching`,
`find_fuzzy_matches`, `generate_fuzzy_match_hint` in `server.py`) -/

/-- Worker for `collapseWs`: `inRun` records whether the previous
character was part of a space/tab run already emitted as one space. -/
def collapseAux : Bool → List Char → List Char
  | _, [] => []
  | inRun, c :: rest =>
    if c = ' ' || c = '\t' then
      if inRun then collapseAux true rest else ' ' :: collapseAux true rest
    else c :: collapseAux false rest

/-- `re.sub(r"[ \t]+", " ", s)`: collapse space/tab runs to one space. -/
def collapseWs (s : List Char) : List Char := collapseAux false s

/-- `normalize_text_for_fuzzy_matching`: unify line endings, collapse
space/tab runs, strip each line, and drop leading/trailing blank lines. -/
def normalize_text_for_fuzzy_matching (text : List Char) : List Char :=
  let t1 := pyReplace ['\r', '\n'] ['\n'] text
  let t2 := pyReplace ['\r'] ['\n'] t1
  let t3 := collapseWs t2
  let lines := (splitChar '\n' t3).map pyStrip
  let lines2 := ((lines.dropWhile List.isEmpty).reverse.dropWhile List.isEmpty).reverse
  joinNl lines2

/-- An exact similarity score `num / den` (`den > 0` by construction).
The server scores windows with `difflib.SequenceMatcher(...).ratio()`;
that library ratio is modelled, per the specification's description, as
the longest-common-subsequence ratio `2 * lcs / (len a + len b)`,
represented exactly as a fraction instead of a float. -/
structure Sim where
  num : Nat
  den : Nat
  deriving DecidableEq, Repr

/-- One row update of the longest-common-subsequence dynamic program:
`diag` is `prev[i]`, `p` is `prev[i+1]`, `left` is `next[i]`. -/
def rowAux (y : Char) : List Char → List Nat → Nat → Nat → List Nat
  | [], _, _, _ => []
  | _ :: _, [], _, _ => []
  | x :: xs, p :: ps, diag, left =>
    let v := if x = y then diag + 1 else max left p
    v :: rowAux y xs ps p v

/-- Extend the LCS row by one character of the second sequence. -/
def lcsRow (xs : List Char) (row : List Nat) (y : Char) : List Nat :=
  match row with
  | [] => []
  | p0 :: ps => 0 :: rowAux y xs ps p0 0

/-- Length of a longest common subsequence. -/
def lcsLen (xs ys : List Char) : Nat :=
  (ys.foldl (lcsRow xs) (List.replicate (xs.length + 1) 0)).getLast?.getD 0

/-- The similarity ratio of two character sequences (`1` when both are
empty, as in the library). -/
def simRatio (a b : List Char) : Sim :=
  let t := a.length + b.length
  if t = 0 then ⟨1, 1⟩ else ⟨2 * lcsLen a b, t⟩

/-- `a < b` as rational values (cross multiplication; denominators are
positive by construction). -/
def simLt (a b : Sim) : Bool := a.num * b.den < b.num * a.den

/-- `a ≤ b` as rational values. -/
def simLe (a b : Sim) : Bool := a.num * b.den ≤ b.num * a.den

/-- `0.8 ≤ s`: the candidate-acceptance threshold `similarity >= 0.8`. -/
def simGe08 (s : Sim) : Bool := 4 * s.den ≤ 5 * s.num

/-- `1/20 ≤ b - s`: the ambiguity gap test
`best_similarity - second_best_similarity >= 0.05`. -/
def simGapGe (b s : Sim) : Bool :=
  20 * (s.num * b.den) + b.den * s.den ≤ 20 * (b.num * s.den)

/-- One candidate window of `find_fuzzy_matches`
(`(start_line, end_line, candidate_text, similarity)`). -/
structure FMatch where
  startLine : Nat
  endLine : Nat
  text : List Char
  sim : Sim
  deriving DecidableEq, Repr

/-- `range(-tol, tol + 1)` as a list of integers. -/
def offsetsFor (tol : Nat) : List Int :=
  (List.range (2 * tol + 1)).map (fun k => (k : Int) - (tol : Int))

/-- One iteration of the innermost window loop of `find_fuzzy_matches`:
compute `end_line`, skip out-of-range windows, normalize the candidate
text and keep it when its similarity reaches the threshold. -/
def windowCandidate (searchNorm : List Char) (contentLines : List (List Char))
    (startLine : Nat) (numSearch : Nat) (off : Int) : Option FMatch :=
  let endI : Int := (startLine : Int) + (numSearch : Int) - 1 + off
  if (contentLines.length : Int) ≤ endI ∨ endI < (startLine : Int) then none
  else
    let endN := endI.toNat
    let candidateLines := (contentLines.drop startLine).take (endN + 1 - startLine)
    let candidateText := joinNl candidateLines
    let nc := normalize_text_for_fuzzy_matching candidateText
    let s := simRatio searchNorm nc
    if simGe08 s then some ⟨startLine, endN, candidateText, s⟩ else none

/-- All accepted candidate windows of `find_fuzzy_matches`, in the order
the `for line_tolerance in [0, 1, 2]` / `for start_line in range(...)` /
`for line_offset in range(-tol, tol+1)` loops produce them (windows
revisited at higher tolerances appear repeatedly, as in the source). -/
def candidateMatches (search content : List Char) : List FMatch :=
  let ns := normalize_text_for_fuzzy_matching search
  let contentLines := splitChar '\n' content
  let numSearch := (splitChar '\n' ns).length
  ([0, 1, 2] : List Nat).flatMap fun tol =>
    (List.range contentLines.length).flatMap fun startLine =>
      (offsetsFor tol).filterMap (windowCandidate ns contentLines startLine numSearch)

/-- Stable insertion into a descending-by-similarity list; an element
is placed before the first element whose similarity is not larger, so
equal scores keep their original order (Python's stable
`sort(key=..., reverse=True)`). -/
def insertDesc (m : FMatch) : List FMatch → List FMatch
  | [] => [m]
  | x :: xs => if simLe x.sim m.sim then m :: x :: xs else x :: insertDesc m xs

/-- Stable sort, best similarity first. -/
def sortDesc : List FMatch → List FMatch
  | [] => []
  | x :: xs => insertDesc x (sortDesc xs)

/-- Python's overlap test
`not (end < existing_start or start > existing_end)`. -/
def overlapsB (m e : FMatch) : Bool :=
  !(m.endLine < e.startLine || e.endLine < m.startLine)

/-- The overlap-removal loop of `find_fuzzy_matches`: walk the sorted
candidates and keep each one that overlaps none already kept. -/
def removeOverlapsAux (acc : List FMatch) : List FMatch → List FMatch
  | [] => acc
  | m :: rest =>
    if acc.any (fun e => overlapsB m e) then removeOverlapsAux acc rest
    else removeOverlapsAux (acc ++ [m]) rest

/-- The candidates surviving sorting and overlap removal. -/
def overlapFiltered (search content : List Char) : List FMatch :=
  removeOverlapsAux [] (sortDesc (candidateMatches search content))

/-- `find_fuzzy_matches`: normalize, collect scored windows, sort,
remove overlaps, and when several non-overlapping candidates remain keep
only a clearly better best one (gap at least `0.05`), else none. -/
def find_fuzzy_matches (search content : List Char) : List FMatch :=
  let ns := normalize_text_for_fuzzy_matching search
  if pyStrip ns = [] then []
  else if candidateMatches search content = [] then []
  else
    match overlapFiltered search content with
    | m1 :: m2 :: _ => if simGapGe m1.sim m2.sim then [m1] else []
    | other => other

/-- Non-empty line count of the stripped search text
(`len([line for line in search_lines if line.strip()])`). -/
def nonEmptyLineCount (t : List Char) : Nat :=
  ((splitChar '\n' t).filter (fun l => !(pyStrip l).isEmpty)).length

/-- The fixed first line of a fuzzy hint. -/
def hintHeader : List Char :=
  "Hint: Found similar content with whitespace/formatting differences. Check the exact text around these lines:".data

/-- `f"{n:4d}"`: right-align in width four. -/
def pad4 (n : Nat) : List Char :=
  List.replicate (4 - (natStr n).length) ' ' ++ natStr n

/-- One numbered context line of a hint, with the in-window marker. -/
def renderHintLine (contentLines : List (List Char)) (m : FMatch) (lineNum : Nat) : List Char :=
  let lineContent := contentLines.getD lineNum []
  if m.startLine ≤ lineNum ∧ lineNum ≤ m.endLine then
    pad4 (lineNum + 1) ++ ": ".data ++ lineContent ++ "  <-- likely match".data
  else pad4 (lineNum + 1) ++ ": ".data ++ lineContent

/-- The rendered hint for a single surviving candidate: header, blank
line, and three context lines around the matched window. -/
def renderHint (m : FMatch) (content : List Char) : List Char :=
  let contentLines := splitChar '\n' content
  let contextStart := m.startLine - 3
  let contextEnd := min contentLines.length (m.endLine + 4)
  joinNl (hintHeader :: [] ::
    (List.range' contextStart (contextEnd - contextStart)).map (renderHintLine contentLines m))

/-- `generate_fuzzy_match_hint`: size and line-count safeguards, then a
hint exactly when `find_fuzzy_matches` returns a single candidate.  (The
source wraps the body in `try/except` returning `None`; the embedding is
total, so no exception path exists.) -/
def generate_fuzzy_match_hint (search content : List Char) : Option (List Char) :=
  let st := pyStrip search
  if st.length < 20 then none
  else if 2000 < st.length then none
  else
    let numLines := nonEmptyLineCount st
    if numLines < 2 then none
    else if 50 < numLines then none
    else
      match find_fuzzy_matches search content with
      | [m] => some (renderHint m content)
      | _ => none

/-! ## Patch applicator and per-file request model (`patch_file` in
`server.py`, lines 1589–1657) -/

/-- The `Block {i+1}: Could not find the search text ...` message. -/
def notFoundBase (i : Nat) : List Char :=
  "Block ".data ++ natStr (i + 1) ++
    ": Could not find the search text in the file. Please ensure the search text exactly matches the content in the file.".data

/-- The `Block {i+1}: The search text appears {count} times ...` message. -/
def ambiguousMsg (i count : Nat) : List Char :=
  "Block ".data ++ natStr (i + 1) ++ ": The search text appears ".data ++ natStr count ++
    " times in the file. Please provide more context to identify the specific occurrence.".data

/-- The zero-match error message, extended with a fuzzy hint when the
generator produces one. -/
def notFoundMsg (i : Nat) (s buf : List Char) : List Char :=
  match generate_fuzzy_match_hint s buf with
  | none => notFoundBase i
  | some h => notFoundBase i ++ "\n\n".data ++ h

/-- The block-application loop of `patch_file`: for each block count the
exact occurrences of the search text in the current buffer; exactly one
occurrence is replaced and the loop continues on the updated buffer,
zero or several occurrences abort with the corresponding message.  On
success the new buffer and the number of applied blocks are returned. -/
def applyBlocksFrom : Nat → List Block → List Char → Except (List Char) (List Char × Nat)
  | _, [], buf => .ok (buf, 0)
  | i, (s, r) :: rest, buf =>
    let c := pyCount s buf
    if c = 1 then
      match applyBlocksFrom (i + 1) rest (pyReplace s r buf) with
      | .error e => .error e
      | .ok p => .ok (p.1, p.2 + 1)
    else if 1 < c then .error (ambiguousMsg i c)
    else .error (notFoundMsg i s buf)

/-- A failed `patch_file` request: a parsing error, an (unreachable)
empty block list, or a block-application error message. -/
inductive PatchFailure where
  | parse (e : ParseError)
  | emptyBlocks
  | apply (msg : List Char)
  deriving DecidableEq

/-- The read–parse–apply–write cycle of `patch_file` on one file: the
first component is the on-disk content after the request (the file is
written once, at the end, and only when every block applied), the second
the outcome. -/
def patch_file_model (disk patch : List Char) : List Char × Except PatchFailure Nat :=
  match parse_search_replace_blocks patch with
  | .error e => (disk, .error (.parse e))
  | .ok blocks =>
    if blocks.isEmpty then (disk, .error .emptyBlocks)
    else
      match applyBlocksFrom 0 blocks disk with
      | .error m => (disk, .error (.apply m))
      | .ok p => (p.1, .ok p.2)

/-! ## Mypy failure streak and failed-edit tracker (`server.py`,
lines 172–304 and 1700–1705) -/

/-- Status of one QA tool in the results dictionary (`None` is modelled
by `Option`). -/
inductive ToolStatus where
  | passed
  | warnings
  | failed
  deriving DecidableEq, Repr

/-- The call-site flag `qa_results.get("mypy_status") == "passed"`
(line 1701). -/
def mypy_passed_flag (mypyStatus : Option ToolStatus) : Bool :=
  decide (mypyStatus = some .passed)

/-- `update_mypy_failure_count` for one file's counter: reset on a pass,
increment otherwise. -/
def update_mypy_failure_count (streak : Nat) (mypyPassed : Bool) : Nat :=
  if mypyPassed then 0 else streak + 1

/-- `should_suppress_mypy_info`: suppress once the streak reaches 3. -/
def should_suppress_mypy_info (streak : Nat) : Bool := decide (3 ≤ streak)

/-- Whether the `- MyPy: passed` status line appears in the response
(line 1722: shown only for a pass and only when not suppressed). -/
def mypyStatusLineShown (st : Option ToolStatus) (suppress : Bool) : Bool :=
  decide (st = some .passed) && !suppress

/-- Whether mypy's failure output appears in the QA details
(line 1747: shown only for a failure and only when not suppressed). -/
def mypyDetailShown (st : Option ToolStatus) (suppress : Bool) : Bool :=
  decide (st = some .failed) && !suppress

/-- One recorded failed edit attempt.  Only the failure stage and the
error message matter to the advisory logic; the timestamp and parameter
hash of the source record are used exclusively by garbage collection,
outside the scope of these claims. -/
structure FailedAttempt where
  stage : List Char
  message : List Char
  deriving DecidableEq

/-- The ordinal rendering of `get_failed_edit_info` (`"2nd"`, `"3rd"`,
else `f"{n}th"`). -/
def ordinalStr (n : Nat) : List Char :=
  if n = 2 then "2nd".data
  else if n = 3 then "3rd".data
  else natStr n ++ "th".data

/-- The basic advisory message. -/
def basicAdvisory (ord : List Char) : List Char :=
  "This was your ".data ++ ord ++ " consecutive failed edit attempt of this file.".data

/-- The advisory message with the block-splitting suggestion. -/
def splitAdvisory (ord : List Char) : List Char :=
  "This was your ".data ++ ord ++
    " consecutive failed edit attempt of this file.\n\nIt looks you are having problems with providing multiple diffs in one tool call. Please consider splitting this edit into a few smaller ones.".data

/-- `get_failed_edit_info` for one file: no message below two recorded
failures, the ordinal message from two, and additionally the splitting
suggestion from three failures when the current patch parses to more
than one block (an unparsable patch counts as one block). -/
def get_failed_edit_info (history : List FailedAttempt) (patch : List Char) : Option (List Char) :=
  if history.isEmpty then none
  else
    let total := history.length
    let blockCount :=
      match parse_search_replace_blocks patch with
      | .ok bs => bs.length
      | .error _ => 1
    let ord := ordinalStr total
    if 3 ≤ total ∧ 1 < blockCount then some (splitAdvisory ord)
    else if 2 ≤ total then some (basicAdvisory ord)
    else none

/-- `clear_failed_edit_history`: a successful patch removes the file's
entire history. -/
def clear_failed_edit_history (_history : List FailedAttempt) : List FailedAttempt := []

/-! ## QA pipeline control flow (`run_python_qa_pipeline` in
`server.py`, lines 1025–1239).  External effects (child processes, the
wall clock, file modification times) are supplied by an environment. -/

/-- The observable outcome of one external tool invocation
(`run_command_with_timeout`): return code (−1 on timeout or spawn
failure) and captured output. -/
structure ToolRun where
  rc : Int
  stdout : List Char
  stderr : List Char

/-- The external world of one pipeline run: wall-clock checks, the
per-iteration tool results, and whether black changed the file's
modification time in a given iteration. -/
structure QAEnv where
  wallExceededLoop : Nat → Bool
  wallExceededMypy : Bool
  exeInvalid : Bool
  fileMissing : Nat → Bool
  ruffRun : Nat → ToolRun
  blackRun : Nat → ToolRun
  blackChanged : Nat → Bool
  mypyRun : ToolRun

/-- The configuration of one pipeline run: the server's skip flags, the
file's language and path properties, and `QA_MAX_ITERATIONS`. -/
structure QAConfig where
  isPythonFile : Bool
  skipRuff : Bool
  skipBlack : Bool
  skipMypy : Bool
  skipMypyOnTests : Bool
  pathHasTests : Bool
  maxIterationsCfg : Nat

/-- The warnings the pipeline can append (each constructor stands for
the corresponding message string of the source). -/
inductive QAWarning where
  | notPython
  | qaDisabled
  | wallTimeout
  | ruffWarnings (err : List Char)
  | blackWarnings (err : List Char)
  | iterationLimit (eff : Nat)
  | wallTimeoutBeforeMypy
  deriving DecidableEq

/-- The `qa_results` dictionary. -/
structure QAState where
  qa_performed : Bool
  iterations_used : Nat
  ruff_status : Option ToolStatus
  black_status : Option ToolStatus
  mypy_status : Option ToolStatus
  ruff_stdout : List Char
  ruff_stderr : List Char
  black_stdout : List Char
  black_stderr : List Char
  mypy_stdout : List Char
  mypy_stderr : List Char
  errors : List (List Char)
  warnings : List QAWarning
  deriving DecidableEq

/-- The freshly initialized `qa_results`. -/
def initQAState : QAState :=
  { qa_performed := true, iterations_used := 0,
    ruff_status := none, black_status := none, mypy_status := none,
    ruff_stdout := [], ruff_stderr := [], black_stdout := [], black_stderr := [],
    mypy_stdout := [], mypy_stderr := [], errors := [], warnings := [] }

/-- Lower-casing for the `"unfixable" in stderr.lower()` test. -/
def lowerList (s : List Char) : List Char := s.map Char.toLower

/-- The ruff step of one iteration; `Except.error` models the early
`return qa_results` paths (timeout/spawn failure, unfixable
diagnostics). -/
def ruffStep (env : QAEnv) (it : Nat) (st : QAState) : Except QAState QAState :=
  let r := env.ruffRun it
  if r.rc = -1 then
    .error { st with
      ruff_status := some ToolStatus.failed
      ruff_stdout := r.stdout
      ruff_stderr := r.stderr }
  else if r.rc ≠ 0 ∧ r.stderr ≠ [] ∧ pyContains "unfixable".data (lowerList r.stderr) then
    .error { st with
      ruff_status := some ToolStatus.failed
      ruff_stdout := r.stdout
      ruff_stderr := r.stderr }
  else
    let st1 :=
      if r.rc ≠ 0 ∧ r.stderr ≠ [] then { st with warnings := st.warnings ++ [.ruffWarnings r.stderr] }
      else st
    .ok { st1 with ruff_status := some (if r.rc = 0 then .passed else .warnings) }

/-- The black step of one iteration; `Except.error` models the early
`return qa_results` on a timeout or spawn failure. -/
def blackStep (env : QAEnv) (it : Nat) (st : QAState) : Except QAState QAState :=
  let b := env.blackRun it
  if b.rc = -1 then
    .error { st with
      black_status := some ToolStatus.failed
      black_stdout := b.stdout
      black_stderr := b.stderr }
  else if b.rc = 0 then .ok { st with black_status := some .passed }
  else
    let st1 := { st with black_status := some .warnings }
    .ok (if b.stderr ≠ [] then { st1 with warnings := st1.warnings ++ [.blackWarnings b.stderr] } else st1)

/-- The `while iteration < effective_iterations` loop.  `fuel` is the
number of iterations still allowed (`effective_iterations - iteration`),
so the loop guard is `fuel > 0`.  The boolean result records whether the
body executed an early `return` (which skips everything after the loop,
including the type checker). -/
def qaLoop (env : QAEnv) (doRuff doBlack : Bool) : Nat → Nat → QAState → QAState × Bool
  | 0, _, st => (st, false)
  | fuel + 1, iteration, st =>
    if env.wallExceededLoop (iteration + 1) then
      ({ st with warnings := st.warnings ++ [.wallTimeout] }, true)
    else
      let it := iteration + 1
      let st1 := { st with iterations_used := it }
      if env.exeInvalid then
        ({ st1 with
            ruff_status := some ToolStatus.failed
            black_status := some ToolStatus.failed
            mypy_status := some ToolStatus.failed
            errors := st1.errors ++ ["Invalid Python executable path".data] }, true)
      else if env.fileMissing it then
        ({ st1 with
            ruff_status := some ToolStatus.failed
            black_status := some ToolStatus.failed
            mypy_status := some ToolStatus.failed
            errors := st1.errors ++ ["File not found or inaccessible".data] }, true)
      else
        match (if doRuff then ruffStep env it st1 else .ok st1) with
        | .error stE => (stE, true)
        | .ok st2 =>
          if doBlack then
            match blackStep env it st2 with
            | .error stE => (stE, true)
            | .ok st3 =>
              if doRuff && env.blackChanged it then qaLoop env doRuff doBlack fuel it st3
              else (st3, false)
          else (st2, false)

/-- `run_python_qa_pipeline`: suffix check, tool-enable flags,
`effective_iterations`, the lint/format iteration loop, the post-loop
iteration-limit check, and the optional mypy step guarded by its own
wall-clock check. -/
def run_python_qa_pipeline (cfg : QAConfig) (env : QAEnv) : QAState :=
  let st0 := initQAState
  if !cfg.isPythonFile then { st0 with warnings := st0.warnings ++ [.notPython] }
  else
    let doRuff := !cfg.skipRuff
    let doBlack := !cfg.skipBlack
    let doMypy := !cfg.skipMypy && (!cfg.skipMypyOnTests || !cfg.pathHasTests)
    let maxIterations := max 1 cfg.maxIterationsCfg
    let effIters := if doRuff && doBlack then maxIterations else 1
    if !(doRuff || doBlack || doMypy) then
      { st0 with qa_performed := false, warnings := st0.warnings ++ [.qaDisabled] }
    else
      let res := qaLoop env doRuff doBlack effIters 0 st0
      if res.2 then res.1
      else if effIters ≤ res.1.iterations_used then
        { res.1 with warnings := res.1.warnings ++ [.iterationLimit effIters] }
      else if doMypy then
        if env.wallExceededMypy then
          { res.1 with warnings := res.1.warnings ++ [.wallTimeoutBeforeMypy] }
        else
          let m := env.mypyRun
          if m.rc = -1 then
            { res.1 with
              mypy_status := some ToolStatus.failed
              mypy_stdout := m.stdout
              mypy_stderr := m.stderr }
          else if m.rc = 0 then { res.1 with mypy_status := some .passed }
          else
            { res.1 with
              mypy_status := some ToolStatus.failed
              mypy_stdout := m.stdout
              mypy_stderr := m.stderr }
      else res.1

/-! ## Helper lemmas about the string primitives -/

theorem pyContains_of_isPrefix {m hay : List Char} (h : m <+: hay) :
    pyContains m hay = true := by
  cases hay with
  | nil =>
    have : m = [] := List.prefix_nil.mp h
    subst this
    simp [pyContains, List.isPrefixOf]
  | cons c rest =>
    simp only [pyContains, Bool.or_eq_true]
    exact Or.inl (List.isPrefixOf_iff_prefix.mpr h)

theorem pyContains_of_isInfix {m hay : List Char} (h : m <:+: hay) :
    pyContains m hay = true := by
  obtain ⟨s, t, hst⟩ := h
  induction s generalizing hay with
  | nil =>
    subst hst
    exact pyContains_of_isPrefix (List.prefix_append m t)
  | cons c s ih =>
    subst hst
    simp only [pyContains, Bool.or_eq_true, List.cons_append]
    exact Or.inr (ih rfl)

theorem isInfix_of_pyContains {m : List Char} :
    ∀ {hay : List Char}, pyContains m hay = true → m <:+: hay := by
  intro hay
  induction hay with
  | nil =>
    intro h
    simp only [pyContains] at h
    have : m <+: [] := List.isPrefixOf_iff_prefix.mp h
    have hm : m = [] := List.prefix_nil.mp this
    subst hm
    exact List.nil_infix
  | cons c rest ih =>
    intro h
    simp only [pyContains, Bool.or_eq_true] at h
    rcases h with h | h
    · exact (List.isPrefixOf_iff_prefix.mp h).isInfix
    · exact List.infix_cons (ih h)

theorem pyContains_eq_true_iff {m hay : List Char} :
    pyContains m hay = true ↔ m <:+: hay :=
  ⟨isInfix_of_pyContains, pyContains_of_isInfix⟩

theorem pyContains_eq_false_iff {m hay : List Char} :
    pyContains m hay = false ↔ ¬ m <:+: hay := by
  rw [← Bool.not_eq_true, not_iff_not]
  exact pyContains_eq_true_iff

theorem countAux_eq_zero_of_not_contains {m : List Char} :
    ∀ {s : List Char}, pyContains m s = false → countAux m s 0 = 0 := by
  intro s
  induction s with
  | nil => intro _; simp [countAux]
  | cons c rest ih =>
    intro h
    simp only [pyContains, Bool.or_eq_false_iff] at h
    simp [countAux, h.1, ih h.2]

/-! ## C1, C2, C10: the patch applicator -/

/-- C1: for every buffer and block, zero occurrences of the search text
produce the not-found error, two or more occurrences produce the
ambiguity error whose message embeds the exact count, and exactly one
occurrence is replaced, continuing with the next block on the updated
buffer. -/
theorem apply_block_match_count_policy (i : Nat) (s r : List Char) (rest : List Block)
    (buf : List Char) :
    (pyCount s buf = 0 →
      applyBlocksFrom i ((s, r) :: rest) buf = .error (notFoundMsg i s buf)) ∧
    (∀ c, pyCount s buf = c → 2 ≤ c →
      applyBlocksFrom i ((s, r) :: rest) buf = .error (ambiguousMsg i c) ∧
      pyContains (natStr c) (ambiguousMsg i c) = true) ∧
    (pyCount s buf = 1 →
      applyBlocksFrom i ((s, r) :: rest) buf =
        match applyBlocksFrom (i + 1) rest (pyReplace s r buf) with
        | .error e => .error e
        | .ok p => .ok (p.1, p.2 + 1)) := by
  refine ⟨?_, ?_, ?_⟩
  · intro h0
    simp [applyBlocksFrom, h0]
  · intro c hc h2
    constructor
    · simp only [applyBlocksFrom]
      rw [hc]
      have h1 : ¬ c = 1 := by omega
      have hgt : 1 < c := by omega
      simp [h1, hgt]
    · apply pyContains_of_isInfix
      refine ⟨"Block ".data ++ natStr (i + 1) ++ ": The search text appears ".data,
        " times in the file. Please provide more context to identify the specific occurrence.".data, ?_⟩
      simp [ambiguousMsg, List.append_assoc]
  · intro h1
    simp [applyBlocksFrom, h1]

/-- Witness for C1 at concrete inputs: a missing search text, a twice-
occurring one, and a unique one. -/
theorem apply_block_match_count_policy_witness :
    (pyCount "xx".data "ab".data = 0 ∧
      applyBlocksFrom 0 [("xx".data, "y".data)] "ab".data =
        .error (notFoundMsg 0 "xx".data "ab".data)) ∧
    (pyCount "a".data "aba".data = 2 ∧
      applyBlocksFrom 0 [("a".data, "y".data)] "aba".data = .error (ambiguousMsg 0 2) ∧
      pyContains (natStr 2) (ambiguousMsg 0 2) = true) ∧
    (pyCount "b".data "ab".data = 1 ∧
      applyBlocksFrom 0 [("b".data, "c".data)] "ab".data = .ok ("ac".data, 1)) := by
  refine ⟨⟨by decide, ?_⟩, ⟨by decide, ?_⟩, ⟨by decide, ?_⟩⟩
  · exact (apply_block_match_count_policy 0 "xx".data "y".data [] "ab".data).1 (by decide)
  · exact (apply_block_match_count_policy 0 "a".data "y".data [] "aba".data).2.1 2
      (by decide) (by decide)
  · have h := (apply_block_match_count_policy 0 "b".data "c".data [] "ab".data).2.2 (by decide)
    rw [h]
    decide

/-- C2: if any block of a request fails, the modelled on-disk content is
unchanged; when the request succeeds, the disk holds exactly the buffer
produced by applying every block, with the reported count. -/
theorem patch_file_atomicity (disk patch : List Char) :
    (∀ e, (patch_file_model disk patch).2 = .error e →
      (patch_file_model disk patch).1 = disk) ∧
    (∀ blocks n, parse_search_replace_blocks patch = .ok blocks →
      (patch_file_model disk patch).2 = .ok n →
      applyBlocksFrom 0 blocks disk = .ok ((patch_file_model disk patch).1, n)) := by
  constructor
  · intro e he
    rcases hp : parse_search_replace_blocks patch with pe | blocks
    · simp [patch_file_model, hp]
    · by_cases hb : blocks.isEmpty
      · simp [patch_file_model, hp, hb]
      · rcases ha : applyBlocksFrom 0 blocks disk with m | p
        · simp [patch_file_model, hp, hb, ha]
        · exfalso
          rw [patch_file_model, hp] at he
          simp [hb, ha] at he
  · intro blocks n hp hn
    rw [patch_file_model, hp] at hn ⊢
    by_cases hb : blocks.isEmpty
    · simp [hb] at hn
    · rcases ha : applyBlocksFrom 0 blocks disk with m | p
      · simp [hb, ha] at hn
      · simp [hb, ha] at hn ⊢
        exact hn ▸ rfl

/-- Witness for C2: a failing request leaves the disk unchanged and a
succeeding one writes the fully applied buffer. -/
theorem patch_file_atomicity_witness :
    ((patch_file_model "abc".data "<<<<<<< SEARCH\nxyz\n=======\nq\n>>>>>>> REPLACE".data).2 =
        .error (.apply (notFoundMsg 0 "xyz".data "abc".data)) ∧
      (patch_file_model "abc".data "<<<<<<< SEARCH\nxyz\n=======\nq\n>>>>>>> REPLACE".data).1 =
        "abc".data) ∧
    (parse_search_replace_blocks "<<<<<<< SEARCH\nb\n=======\nq\n>>>>>>> REPLACE".data =
        .ok [("b".data, "q".data)] ∧
      (patch_file_model "abc".data "<<<<<<< SEARCH\nb\n=======\nq\n>>>>>>> REPLACE".data).2 =
        .ok 1 ∧
      applyBlocksFrom 0 [("b".data, "q".data)] "abc".data =
        .ok ((patch_file_model "abc".data
          "<<<<<<< SEARCH\nb\n=======\nq\n>>>>>>> REPLACE".data).1, 1)) := by
  refine ⟨⟨by decide, ?_⟩, by decide, by decide, ?_⟩
  · exact (patch_file_atomicity "abc".data
      "<<<<<<< SEARCH\nxyz\n=======\nq\n>>>>>>> REPLACE".data).1
      (.apply (notFoundMsg 0 "xyz".data "abc".data)) (by decide)
  · exact (patch_file_atomicity "abc".data
      "<<<<<<< SEARCH\nb\n=======\nq\n>>>>>>> REPLACE".data).2
      [("b".data, "q".data)] 1 (by decide) (by decide)

/-- C10: the fuzzy hint generator is a total function into `Option`, so
for every zero-match block the applicator surfaces the not-found error,
whose text is the base message exactly extended by the hint when one is
produced. -/
theorem zero_match_error_always_surfaced (i : Nat) (s r : List Char) (rest : List Block)
    (buf : List Char) (h : pyCount s buf = 0) :
    applyBlocksFrom i ((s, r) :: rest) buf = .error (notFoundMsg i s buf) ∧
    (generate_fuzzy_match_hint s buf = none → notFoundMsg i s buf = notFoundBase i) ∧
    (∀ hint, generate_fuzzy_match_hint s buf = some hint →
      notFoundMsg i s buf = notFoundBase i ++ "\n\n".data ++ hint) := by
  refine ⟨?_, ?_, ?_⟩
  · simp [applyBlocksFrom, h]
  · intro hn
    simp [notFoundMsg, hn]
  · intro hint hs
    simp [notFoundMsg, hs]

set_option maxRecDepth 40000 in
/-- Witness for C10 at a search text that actually triggers fuzzy hint
generation: the not-found error is surfaced with the hint appended. -/
theorem zero_match_error_always_surfaced_witness :
    pyCount "def hello_world():\n    print('Hello, World')".data
        "import os\n\ndef hello_world( ):\n    print( 'Hello, World' )\n\nprint('bye')".data = 0 ∧
    applyBlocksFrom 0 [("def hello_world():\n    print('Hello, World')".data, "r".data)]
        "import os\n\ndef hello_world( ):\n    print( 'Hello, World' )\n\nprint('bye')".data =
      .error (notFoundMsg 0 "def hello_world():\n    print('Hello, World')".data
        "import os\n\ndef hello_world( ):\n    print( 'Hello, World' )\n\nprint('bye')".data) :=
  ⟨by decide,
    (zero_match_error_always_surfaced 0
      "def hello_world():\n    print('Hello, World')".data "r".data []
      "import os\n\ndef hello_world( ):\n    print( 'Hello, World' )\n\nprint('bye')".data
      (by decide)).1⟩

/-! ## C8: fuzzy hint safeguards -/

/-- C8: the fuzzy hint generator returns no hint whenever the stripped
search text is shorter than 20 or longer than 2000 characters, or has
fewer than 2 or more than 50 non-empty lines, regardless of the file
content. -/
theorem fuzzy_hint_guards (search content : List Char)
    (h : (pyStrip search).length < 20 ∨ 2000 < (pyStrip search).length ∨
      nonEmptyLineCount (pyStrip search) < 2 ∨ 50 < nonEmptyLineCount (pyStrip search)) :
    generate_fuzzy_match_hint search content = none := by
  by_cases h1 : (pyStrip search).length < 20
  · simp [generate_fuzzy_match_hint, h1]
  · by_cases h2 : 2000 < (pyStrip search).length
    · simp [generate_fuzzy_match_hint, h1, h2]
    · by_cases h3 : nonEmptyLineCount (pyStrip search) < 2
      · simp [generate_fuzzy_match_hint, h1, h2, h3]
      · by_cases h4 : 50 < nonEmptyLineCount (pyStrip search)
        · simp [generate_fuzzy_match_hint, h1, h2, h3, h4]
        · exfalso
          rcases h with h | h | h | h <;> omega

/-- Witness for C8: a three-character search text yields no hint even
over content containing it nearly verbatim. -/
theorem fuzzy_hint_guards_witness :
    ((pyStrip "abc".data).length < 20 ∨ 2000 < (pyStrip "abc".data).length ∨
      nonEmptyLineCount (pyStrip "abc".data) < 2 ∨
      50 < nonEmptyLineCount (pyStrip "abc".data)) ∧
    generate_fuzzy_match_hint "abc".data "abc d\nabc e".data = none :=
  ⟨by decide, fuzzy_hint_guards "abc".data "abc d\nabc e".data (by decide)⟩

/-! ## C6: the mypy failure streak -/

/-- C6 counterexample: a skipped mypy run records status `None`, a
non-failure outcome, yet the call-site flag
`qa_results.get("mypy_status") == "passed"` maps it to `False` and the
streak is incremented to 1 instead of being reset to 0 as the claim
states. -/
theorem mypy_streak_counterexample :
    mypy_passed_flag none = false ∧
    update_mypy_failure_count 0 (mypy_passed_flag none) = 1 := by decide

/-- C6 (amended): the streak is reset to zero exactly when the recorded
mypy status is `passed` and incremented on every other outcome (failure,
skipped, or not run); mypy's status line and failure detail are
suppressed exactly when the streak is at least three. -/
theorem mypy_streak_amended (streak : Nat) (st : Option ToolStatus) :
    (st = some .passed → update_mypy_failure_count streak (mypy_passed_flag st) = 0) ∧
    (st ≠ some .passed →
      update_mypy_failure_count streak (mypy_passed_flag st) = streak + 1) ∧
    (should_suppress_mypy_info streak = true ↔ 3 ≤ streak) ∧
    (should_suppress_mypy_info streak = true →
      mypyStatusLineShown st (should_suppress_mypy_info streak) = false ∧
      mypyDetailShown st (should_suppress_mypy_info streak) = false) := by
  refine ⟨?_, ?_, ?_, ?_⟩
  · intro hp
    simp [update_mypy_failure_count, mypy_passed_flag, hp]
  · intro hp
    simp [update_mypy_failure_count, mypy_passed_flag, hp]
  · simp [should_suppress_mypy_info]
  · intro hs
    simp [mypyStatusLineShown, mypyDetailShown, hs]

/-- Witness for C6 (amended) at streak 3 after a skipped run. -/
theorem mypy_streak_amended_witness :
    ((none : Option ToolStatus) ≠ some .passed ∧
      update_mypy_failure_count 2 (mypy_passed_flag none) = 3) ∧
    (should_suppress_mypy_info 3 = true ↔ 3 ≤ 3) ∧
    (should_suppress_mypy_info 3 = true →
      mypyStatusLineShown (some .passed) (should_suppress_mypy_info 3) = false ∧
      mypyDetailShown (some .passed) (should_suppress_mypy_info 3) = false) :=
  ⟨⟨by decide, (mypy_streak_amended 2 none).2.1 (by decide)⟩,
    (mypy_streak_amended 3 (some .passed)).2.2.1,
    (mypy_streak_amended 3 (some .passed)).2.2.2⟩

/-! ## C7: the failed-edit advisory -/

theorem pyContains_append_right {m b : List Char} (a : List Char)
    (h : pyContains m b = true) : pyContains m (a ++ b) = true := by
  apply pyContains_of_isInfix
  obtain ⟨s, t, hst⟩ := isInfix_of_pyContains h
  exact ⟨a ++ s, t, by rw [← hst]; simp⟩

/-- C7: the advisory is absent after exactly one recorded failure,
contains the ordinal `2nd` after exactly two, additionally suggests
splitting from three failures onward when the current request parses to
more than one block, and is absent again once a success clears the
file's history. -/
theorem failed_edit_advisory_policy :
    (∀ (h : List FailedAttempt) (patch : List Char), h.length = 1 →
      get_failed_edit_info h patch = none) ∧
    (∀ (h : List FailedAttempt) (patch : List Char), h.length = 2 →
      get_failed_edit_info h patch = some (basicAdvisory "2nd".data) ∧
      pyContains "2nd".data (basicAdvisory "2nd".data) = true) ∧
    (∀ (h : List FailedAttempt) (patch : List Char) (bs : List Block), 3 ≤ h.length →
      parse_search_replace_blocks patch = .ok bs → 1 < bs.length →
      get_failed_edit_info h patch = some (splitAdvisory (ordinalStr h.length)) ∧
      pyContains "consider splitting this edit".data
        (splitAdvisory (ordinalStr h.length)) = true) ∧
    (∀ (h : List FailedAttempt) (patch : List Char),
      get_failed_edit_info (clear_failed_edit_history h) patch = none) := by
  refine ⟨?_, ?_, ?_, ?_⟩
  · intro h patch hl
    have hne : ¬ h.isEmpty = true := by
      intro he
      rw [List.isEmpty_iff] at he
      subst he
      simp at hl
    simp [get_failed_edit_info, hne, hl]
  · intro h patch hl
    have hne : ¬ h.isEmpty = true := by
      intro he
      rw [List.isEmpty_iff] at he
      subst he
      simp at hl
    refine ⟨?_, by decide⟩
    simp [get_failed_edit_info, hne, hl, ordinalStr]
  · intro h patch bs hl hp hb
    have hne : ¬ h.isEmpty = true := by
      intro he
      rw [List.isEmpty_iff] at he
      subst he
      simp at hl
    constructor
    · simp [get_failed_edit_info, hne, hp, hl, hb]
    · apply pyContains_append_right
      decide
  · intro h patch
    simp [get_failed_edit_info, clear_failed_edit_history]

/-- Witness for C7 on concrete histories and a concrete two-block
patch. -/
theorem failed_edit_advisory_policy_witness :
    get_failed_edit_info [⟨"s".data, "m".data⟩] "x".data = none ∧
    get_failed_edit_info [⟨"s".data, "m".data⟩, ⟨"s".data, "m".data⟩] "x".data =
      some (basicAdvisory "2nd".data) ∧
    get_failed_edit_info [⟨"s".data, "m".data⟩, ⟨"s".data, "m".data⟩, ⟨"s".data, "m".data⟩]
        "<<<<<<< SEARCH\na\n=======\nb\n>>>>>>> REPLACE\n<<<<<<< SEARCH\nc\n=======\nd\n>>>>>>> REPLACE".data =
      some (splitAdvisory (ordinalStr 3)) ∧
    get_failed_edit_info (clear_failed_edit_history [⟨"s".data, "m".data⟩]) "x".data = none := by
  refine ⟨?_, ?_, ?_, ?_⟩
  · exact failed_edit_advisory_policy.1 _ _ (by decide)
  · exact (failed_edit_advisory_policy.2.1 _ _ (by decide)).1
  · have h3 := (failed_edit_advisory_policy.2.2.1
      [⟨"s".data, "m".data⟩, ⟨"s".data, "m".data⟩, ⟨"s".data, "m".data⟩]
      "<<<<<<< SEARCH\na\n=======\nb\n>>>>>>> REPLACE\n<<<<<<< SEARCH\nc\n=======\nd\n>>>>>>> REPLACE".data
      [("a".data, "b".data), ("c".data, "d".data)]
      (by decide) (by decide) (by decide)).1
    exact h3
  · exact failed_edit_advisory_policy.2.2.2 _ _

/-! ## C9: fuzzy-match ambiguity handling -/

/-- C9: when more than one candidate survives overlap removal, a hint
candidate is returned exactly when the best similarity exceeds the
second best by at least `0.05`, and then only the best one; in every
case `find_fuzzy_matches` returns at most one candidate, so a hint is
never rendered for several. -/
theorem fuzzy_ambiguity_rule (search content : List Char) (m1 m2 : FMatch)
    (rest : List FMatch)
    (h0 : ¬ pyStrip (normalize_text_for_fuzzy_matching search) = [])
    (h2 : overlapFiltered search content = m1 :: m2 :: rest) :
    find_fuzzy_matches search content = (if simGapGe m1.sim m2.sim then [m1] else []) ∧
    (∀ s c, (find_fuzzy_matches s c).length ≤ 1) := by
  constructor
  · by_cases hc : candidateMatches search content = []
    · exfalso
      rw [overlapFiltered, hc] at h2
      simp [sortDesc, removeOverlapsAux] at h2
    · simp [find_fuzzy_matches, h0, hc, h2]
  · intro s c
    by_cases hs : pyStrip (normalize_text_for_fuzzy_matching s) = []
    · simp [find_fuzzy_matches, hs]
    · by_cases hc : candidateMatches s c = []
      · simp [find_fuzzy_matches, hs, hc]
      · rcases hF : overlapFiltered s c with _ | ⟨x, _ | ⟨y, t⟩⟩
        · simp [find_fuzzy_matches, hs, hc, hF]
        · simp [find_fuzzy_matches, hs, hc, hF]
        · by_cases hg : simGapGe x.sim y.sim
          · simp [find_fuzzy_matches, hs, hc, hF, hg]
          · simp [find_fuzzy_matches, hs, hc, hF, hg]

set_option maxRecDepth 40000 in
/-- Witness for C9: content with two similar, non-overlapping regions;
the best beats the second best by more than `0.05`, so exactly the best
is returned. -/
theorem fuzzy_ambiguity_rule_witness :
    (¬ pyStrip (normalize_text_for_fuzzy_matching
        "alpha beta gamma delta\nepsilon zeta eta theta".data) = []) ∧
    overlapFiltered "alpha beta gamma delta\nepsilon zeta eta theta".data
        "alpha beta gamma delta\nepsilon zeta eta theta\nxxxx1\nyyyy2\nzzzz3\nalpha beta gamma delta\nepsilon zeta eta QQQQQ".data =
      [⟨0, 1, "alpha beta gamma delta\nepsilon zeta eta theta".data, ⟨90, 90⟩⟩,
        ⟨5, 6, "alpha beta gamma delta\nepsilon zeta eta QQQQQ".data, ⟨80, 90⟩⟩] ∧
    find_fuzzy_matches "alpha beta gamma delta\nepsilon zeta eta theta".data
        "alpha beta gamma delta\nepsilon zeta eta theta\nxxxx1\nyyyy2\nzzzz3\nalpha beta gamma delta\nepsilon zeta eta QQQQQ".data =
      (if simGapGe (⟨90, 90⟩ : Sim) (⟨80, 90⟩ : Sim) then
        [⟨0, 1, "alpha beta gamma delta\nepsilon zeta eta theta".data, ⟨90, 90⟩⟩]
      else []) := by
  refine ⟨by decide, by decide, ?_⟩
  exact (fuzzy_ambiguity_rule
    "alpha beta gamma delta\nepsilon zeta eta theta".data
    "alpha beta gamma delta\nepsilon zeta eta theta\nxxxx1\nyyyy2\nzzzz3\nalpha beta gamma delta\nepsilon zeta eta QQQQQ".data
    ⟨0, 1, "alpha beta gamma delta\nepsilon zeta eta theta".data, ⟨90, 90⟩⟩
    ⟨5, 6, "alpha beta gamma delta\nepsilon zeta eta QQQQQ".data, ⟨80, 90⟩⟩
    [] (by decide) (by decide)).1

/-! ## C4: type-checker invocation in the QA pipeline -/

/-- C4 counterexample: with the linter disabled, the formatter and the
type checker enabled, and the wall clock never exhausted, the single
pass trips the post-loop iteration-limit check and the pipeline returns
with the type checker never invoked (`mypy_status = none`), contrary to
the claim that the enabled type checker still runs afterwards. -/
theorem qa_mypy_skipped_counterexample :
    (run_python_qa_pipeline ⟨true, true, false, false, true, false, 4⟩
      ⟨fun _ => false, false, false, fun _ => false, fun _ => ⟨0, [], []⟩,
        fun _ => ⟨0, [], []⟩, fun _ => false, ⟨0, [], []⟩⟩).mypy_status = none ∧
    (run_python_qa_pipeline ⟨true, true, false, false, true, false, 4⟩
      ⟨fun _ => false, false, false, fun _ => false, fun _ => ⟨0, [], []⟩,
        fun _ => ⟨0, [], []⟩, fun _ => false, ⟨0, [], []⟩⟩).warnings =
      [.iterationLimit 1] := by
  constructor <;> rfl

/-- C4 (amended): in a run without wall-clock exhaustion or tool
failures, the enabled type checker runs once after the loop only when
both linter and formatter are enabled (and the cap is not hit); when
either of them is disabled, exactly one pass is performed, the post-loop
iteration-limit check fires, and the enabled type checker is skipped. -/
theorem qa_typechecker_invocation_amended (cfg : QAConfig) (env : QAEnv)
    (hpy : cfg.isPythonFile = true)
    (hw : ∀ i, env.wallExceededLoop i = false)
    (hx : env.exeInvalid = false)
    (hf : ∀ i, env.fileMissing i = false)
    (hrr : ∀ i, (env.ruffRun i).rc = 0)
    (hbr : ∀ i, (env.blackRun i).rc = 0)
    (hbc : ∀ i, env.blackChanged i = false)
    (hwm : env.wallExceededMypy = false)
    (hm : (!cfg.skipMypy && (!cfg.skipMypyOnTests || !cfg.pathHasTests)) = true) :
    (cfg.skipRuff = false → cfg.skipBlack = false → 2 ≤ cfg.maxIterationsCfg →
      (run_python_qa_pipeline cfg env).mypy_status =
        some (if env.mypyRun.rc = 0 then .passed else .failed) ∧
      (run_python_qa_pipeline cfg env).iterations_used = 1) ∧
    ((cfg.skipRuff = true ∨ cfg.skipBlack = true) →
      (run_python_qa_pipeline cfg env).mypy_status = none ∧
      (run_python_qa_pipeline cfg env).warnings = [.iterationLimit 1]) := by
  constructor
  · intro hr hb hit
    obtain ⟨k, hk⟩ : ∃ k, max 1 cfg.maxIterationsCfg = k + 2 :=
      ⟨cfg.maxIterationsCfg - 2, by omega⟩
    rw [run_python_qa_pipeline, hpy]
    simp only [hr, hb, hm, Bool.not_false, Bool.not_true, Bool.and_self, Bool.true_and,
      Bool.or_true, Bool.true_or, if_true, if_false, Bool.not_eq_true', hk]
    simp [qaLoop, hw, hx, hf, ruffStep, hrr, blackStep, hbr, hbc, hwm, hm, initQAState]
    by_cases hm1 : env.mypyRun.rc = -1
    · have hm0 : ¬ env.mypyRun.rc = 0 := by rw [hm1]; decide
      simp [hm1, hm0]
    · by_cases hm0 : env.mypyRun.rc = 0
      · simp [hm1, hm0]
      · simp [hm1, hm0]
  · intro hor
    rw [run_python_qa_pipeline, hpy]
    rcases hor with hr | hb
    · rcases hcb : cfg.skipBlack with _ | _
      · simp only [hr, hcb, hm, Bool.not_true, Bool.not_false, Bool.false_and, Bool.and_false,
          if_false, if_true]
        simp [qaLoop, hw, hx, hf, blackStep, hbr, hbc, hwm, hm, initQAState]
      · simp only [hr, hcb, hm, Bool.not_true, Bool.not_false, Bool.false_and, Bool.and_false,
          if_false, if_true]
        simp [qaLoop, hw, hx, hf, hwm, hm, initQAState]
    · rcases hcr : cfg.skipRuff with _ | _
      · simp only [hb, hcr, Bool.not_true, Bool.not_false, Bool.and_false, Bool.false_and]
        simp [qaLoop, hw, hx, hf, ruffStep, hrr, hbc, hwm, hm, initQAState]
      · simp only [hb, hcr, Bool.not_true, Bool.not_false, Bool.and_false, Bool.false_and]
        simp [qaLoop, hw, hx, hf, hwm, hm, initQAState]

/-- Witness for C4 (amended): with everything enabled the type checker
reports, with the linter disabled it is skipped and the iteration-limit
warning appears. -/
theorem qa_typechecker_invocation_amended_witness :
    ((run_python_qa_pipeline ⟨true, false, false, false, true, false, 4⟩
        ⟨fun _ => false, false, false, fun _ => false, fun _ => ⟨0, [], []⟩,
          fun _ => ⟨0, [], []⟩, fun _ => false, ⟨0, [], []⟩⟩).mypy_status =
      some (if (0 : Int) = 0 then .passed else .failed) ∧
      (run_python_qa_pipeline ⟨true, false, false, false, true, false, 4⟩
        ⟨fun _ => false, false, false, fun _ => false, fun _ => ⟨0, [], []⟩,
          fun _ => ⟨0, [], []⟩, fun _ => false, ⟨0, [], []⟩⟩).iterations_used = 1) ∧
    ((run_python_qa_pipeline ⟨true, true, false, false, true, false, 4⟩
        ⟨fun _ => false, false, false, fun _ => false, fun _ => ⟨0, [], []⟩,
          fun _ => ⟨0, [], []⟩, fun _ => false, ⟨0, [], []⟩⟩).mypy_status = none ∧
      (run_python_qa_pipeline ⟨true, true, false, false, true, false, 4⟩
        ⟨fun _ => false, false, false, fun _ => false, fun _ => ⟨0, [], []⟩,
          fun _ => ⟨0, [], []⟩, fun _ => false, ⟨0, [], []⟩⟩).warnings =
        [.iterationLimit 1]) :=
  ⟨(qa_typechecker_invocation_amended ⟨true, false, false, false, true, false, 4⟩
      ⟨fun _ => false, false, false, fun _ => false, fun _ => ⟨0, [], []⟩,
        fun _ => ⟨0, [], []⟩, fun _ => false, ⟨0, [], []⟩⟩
      rfl (fun _ => rfl) rfl (fun _ => rfl) (fun _ => rfl) (fun _ => rfl)
      (fun _ => rfl) rfl rfl).1 rfl rfl (by norm_num),
    (qa_typechecker_invocation_amended ⟨true, true, false, false, true, false, 4⟩
      ⟨fun _ => false, false, false, fun _ => false, fun _ => ⟨0, [], []⟩,
        fun _ => ⟨0, [], []⟩, fun _ => false, ⟨0, [], []⟩⟩
      rfl (fun _ => rfl) rfl (fun _ => rfl) (fun _ => rfl) (fun _ => rfl)
      (fun _ => rfl) rfl rfl).2 (Or.inl rfl)⟩

/-! ## C5: the nested-marker check -/

theorem pyContains_nil_of_ne {sep : List Char} (h : sep ≠ []) : pyContains sep [] = false := by
  cases sep with
  | nil => exact absurd rfl h
  | cons c t => simp [pyContains, List.isPrefixOf]

theorem pyContains_snoc_cases {sep xs : List Char} {c : Char}
    (h : pyContains sep (xs ++ [c]) = true) :
    pyContains sep xs = true ∨ sep <:+ (xs ++ [c]) := by
  obtain ⟨s, t, hst⟩ := isInfix_of_pyContains h
  rcases List.eq_nil_or_concat t with rfl | ⟨t', a, rfl⟩
  · right
    exact ⟨s, by simpa using hst⟩
  · left
    rw [List.concat_eq_append, ← List.append_assoc] at hst
    obtain ⟨h1, _⟩ := List.append_inj' hst (by simp)
    exact pyContains_of_isInfix ⟨s, t', by rw [← h1]⟩

theorem suffix_snoc_struct {s1 xs : List Char} {c : Char}
    (h : s1 <:+ (xs ++ [c])) (hne : s1 ≠ []) :
    ∃ s1p, s1 = s1p ++ [c] ∧ s1p <:+ xs := by
  obtain ⟨u, hu⟩ := h
  rcases List.eq_nil_or_concat s1 with rfl | ⟨s1p, a, rfl⟩
  · exact absurd rfl hne
  · rw [List.concat_eq_append, ← List.append_assoc] at hu
    obtain ⟨h1, h2⟩ := List.append_inj' hu (by simp)
    obtain rfl : a = c := by simpa using h2
    exact ⟨s1p, by simp [List.concat_eq_append], ⟨u, h1⟩⟩

/-- No piece produced by `splitAux` contains the separator: the current
piece never does (invariant one), and no partial separator match can
straddle the boundary between the accumulated piece and the remaining
input (invariant two), because the scan would have consumed it. -/
theorem splitAux_pieces_bound (sep : List Char) (hsep : sep ≠ []) :
    ∀ n, ∀ rem : List Char, rem.length ≤ n →
      ((∀ cur, pyContains sep cur.reverse = false →
        (∀ s1 s2, sep = s1 ++ s2 → s1 ≠ [] → s1 <:+ cur.reverse → s2 <+: rem → False) →
        ∀ piece ∈ splitAux sep cur rem 0, pyContains sep piece = false) ∧
      (∀ k piece, piece ∈ splitAux sep [] rem (k + 1) → pyContains sep piece = false)) := by
  intro n
  induction n with
  | zero =>
    intro rem hlen
    have hnil : rem = [] := List.length_eq_zero.mp (Nat.le_zero.mp hlen)
    subst hnil
    constructor
    · intro cur h1 _ piece hp
      simp only [splitAux, List.mem_singleton] at hp
      subst hp
      exact h1
    · intro k piece hp
      simp only [splitAux, List.mem_singleton] at hp
      subst hp
      simpa using pyContains_nil_of_ne hsep
  | succ n ih =>
    intro rem hlen
    constructor
    · intro cur h1 h2 piece hp
      cases rem with
      | nil =>
        simp only [splitAux, List.mem_singleton] at hp
        subst hp
        exact h1
      | cons c rest =>
        have hlen2 : rest.length ≤ n := by simpa using hlen
        by_cases hpre : sep.isPrefixOf (c :: rest) = true
        · rw [splitAux, if_pos hpre] at hp
          rcases List.mem_cons.mp hp with rfl | hp2
          · exact h1
          · rcases hl : sep.length - 1 with _ | j
            · rw [hl] at hp2
              refine (ih rest hlen2).1 [] (by simpa using pyContains_nil_of_ne hsep) ?_ piece hp2
              intro s1 s2 _ hs1ne hsuf _
              rw [List.reverse_nil] at hsuf
              exact hs1ne (List.suffix_nil.mp hsuf)
            · rw [hl] at hp2
              exact (ih rest hlen2).2 j piece hp2
        · rw [splitAux, if_neg hpre] at hp
          refine (ih rest hlen2).1 (c :: cur) ?_ ?_ piece hp
          · by_contra hcon
            rw [Bool.not_eq_false, List.reverse_cons] at hcon
            rcases pyContains_snoc_cases hcon with hin | hsuf
            · rw [h1] at hin
              exact Bool.false_ne_true hin
            · obtain ⟨sp, hsp, hspsuf⟩ := suffix_snoc_struct hsuf hsep
              rcases List.eq_nil_or_concat sp with rfl | hsp2
              · apply hpre
                rw [List.isPrefixOf_iff_prefix, hsp, List.nil_append]
                exact ⟨rest, rfl⟩
              · obtain ⟨spp, b, rfl⟩ := hsp2
                refine h2 (spp.concat b) [c] hsp ?_ hspsuf ⟨rest, rfl⟩
                simp [List.concat_eq_append]
          · intro s1 s2 heq hs1ne hsuf hs2
            rw [List.reverse_cons] at hsuf
            obtain ⟨s1p, rfl, hs1psuf⟩ := suffix_snoc_struct hsuf hs1ne
            rcases List.eq_nil_or_concat s1p with rfl | ⟨s1pp, b, rfl⟩
            · apply hpre
              rw [List.isPrefixOf_iff_prefix, heq, List.nil_append, List.singleton_append]
              exact (List.cons_prefix_cons).mpr ⟨rfl, hs2⟩
            · refine h2 (s1pp.concat b) (c :: s2) ?_ ?_ hs1psuf ?_
              · rw [heq]
                simp
              · simp [List.concat_eq_append]
              · exact (List.cons_prefix_cons).mpr ⟨rfl, hs2⟩
    · intro k piece hp
      cases rem with
      | nil =>
        simp only [splitAux, List.mem_singleton] at hp
        subst hp
        simpa using pyContains_nil_of_ne hsep
      | cons c rest =>
        have hlen2 : rest.length ≤ n := by simpa using hlen
        rw [splitAux] at hp
        rcases k with _ | j
        · refine (ih rest hlen2).1 [] (by simpa using pyContains_nil_of_ne hsep) ?_ piece hp
          intro s1 s2 _ hs1ne hsuf _
          rw [List.reverse_nil] at hsuf
          exact hs1ne (List.suffix_nil.mp hsuf)
        · exact (ih rest hlen2).2 j piece hp

/-- Python's `split` removes every occurrence of the separator, so no
piece it returns contains the separator. -/
theorem pySplit_pieces {sep : List Char} (hsep : sep ≠ []) (hay : List Char) :
    ∀ piece ∈ pySplit sep hay, pyContains sep piece = false := by
  intro piece hp
  rw [pySplit, if_neg hsep] at hp
  refine (splitAux_pieces_bound sep hsep hay.length hay le_rfl).1 []
    (by simpa using pyContains_nil_of_ne hsep) ?_ piece hp
  intro s1 s2 _ hs1ne hsuf _
  rw [List.reverse_nil] at hsuf
  exact hs1ne (List.suffix_nil.mp hsuf)

/-- Whether a validation outcome is the nested-marker rejection. -/
def isNestedError : Except ValError Unit → Bool
  | .error (.nested _) => true
  | _ => false

/-- The hypothesis of the nested-marker claim, read on the raw patch
text: after the first SEARCH marker another SEARCH marker occurs, before
the section's closing REPLACE marker (or with no REPLACE marker at
all). -/
def hasNestedSearchMarker (p : List Char) : Bool :=
  match splitOnce searchMarker p with
  | none => false
  | some q =>
    pyContains searchMarker q.2 &&
      (pyFind replMarker q.2 < 0 || pyFind searchMarker q.2 < pyFind replMarker q.2)

theorem nestedCheck_none {sections : List (List Char)}
    (h : ∀ s ∈ sections, pyContains searchMarker s = false) :
    ∀ i, nestedCheck i sections = none := by
  induction sections with
  | nil => intro i; rfl
  | cons s rest ih =>
    intro i
    rw [nestedCheck]
    have hs : pyContains searchMarker s = false := h s (List.mem_cons_self s rest)
    rw [hs]
    simp only [Bool.false_and, if_false]
    exact ih (fun x hx => h x (List.mem_cons_of_mem s hx)) (i + 1)

/-- C5 counterexample: the repository's own nested-marker example (a
SEARCH section containing a further SEARCH marker before its closing
REPLACE marker) is rejected by the marker-sequence check, not by the
nested-marker check the claim names. -/
theorem nested_marker_claim_counterexample :
    hasNestedSearchMarker
      "<<<<<<< SEARCH\n<<<<<<< SEARCH\nnested\n=======\nreplacement\n>>>>>>> REPLACE\n=======\nouter replacement\n>>>>>>> REPLACE".data = true ∧
    isNestedError (validate_block_integrity
      "<<<<<<< SEARCH\n<<<<<<< SEARCH\nnested\n=======\nreplacement\n>>>>>>> REPLACE\n=======\nouter replacement\n>>>>>>> REPLACE".data) = false ∧
    validate_block_integrity
      "<<<<<<< SEARCH\n<<<<<<< SEARCH\nnested\n=======\nreplacement\n>>>>>>> REPLACE\n=======\nouter replacement\n>>>>>>> REPLACE".data =
      .error (.badSequence 0) := by
  refine ⟨by decide, by decide, by decide⟩

/-- C5 (amended): the nested-marker branch of `validate_block_integrity`
is unreachable — `str.split` removes every SEARCH marker, so no section
it iterates over can contain one — and validation never rejects with the
nested-marker error; nested-SEARCH patches are caught, if at all, by the
unbalanced-count or marker-sequence checks. -/
theorem validate_never_nested (patch : List Char) :
    isNestedError (validate_block_integrity patch) = false := by
  rw [validate_block_integrity]
  by_cases hbal : ¬(pyCount searchMarker patch = pyCount sepMarker patch ∧
      pyCount sepMarker patch = pyCount replMarker patch)
  · rw [if_pos hbal]
    rfl
  · rw [if_neg hbal]
    rcases hs : seqCheck 0 (markerLines patch) with _ | i
    · have hsec : ∀ s ∈ List.drop 1 (pySplit searchMarker patch),
          pyContains searchMarker s = false := fun s hsmem =>
        pySplit_pieces (by decide) patch s (List.drop_subset 1 _ hsmem)
      rw [nestedCheck_none hsec 1]
      rfl
    · rfl

/-! ## C3: parser round trip and unbalanced markers.

`renderPatch` renders a list of blocks in the documented well-formed
format: each block is `SEARCH` marker line, search text, separator line,
replace text, `REPLACE` marker line, and consecutive blocks are joined
by a newline.  `goodBlock` is the documented invariant that block texts
embed no marker literal. -/

/-- A block whose search and replace texts embed no marker literal. -/
def goodBlock (b : Block) : Prop :=
  containsAnyMarker b.1 = false ∧ containsAnyMarker b.2 = false

/-- The canonical rendering of one block. -/
def renderBlock (b : Block) : List Char :=
  searchMarker ++ '\n' :: (b.1 ++ '\n' :: (sepMarker ++ '\n' :: (b.2 ++ '\n' :: replMarker)))

/-- The canonical rendering of a whole patch: blocks joined by one
newline. -/
def renderPatch : List Block → List Char
  | [] => []
  | [b] => renderBlock b
  | b :: rest => renderBlock b ++ '\n' :: renderPatch rest

theorem renderBlock_flat (b : Block) :
    renderBlock b = searchNl ++ (b.1 ++ (nlSepNl ++ (b.2 ++ nlRepl))) := by
  simp [renderBlock, searchNl, nlSepNl, nlRepl]

theorem containsAnyMarker_false_elim {t : List Char} (h : containsAnyMarker t = false) :
    pyContains searchMarker t = false ∧ pyContains sepMarker t = false ∧
      pyContains replMarker t = false := by
  simp only [containsAnyMarker, Bool.or_eq_false_iff] at h
  exact ⟨h.1.1, h.1.2, h.2⟩

theorem prefix_through_newline {m x y : List Char} (hnl : '\n' ∉ m)
    (h : m <+: (x ++ '\n' :: y)) : m <+: x := by
  have hx := List.prefix_iff_eq_take.mp h
  by_cases hlen : m.length ≤ x.length
  · rw [List.take_append_eq_append_take, Nat.sub_eq_zero_of_le hlen, List.take_zero,
      List.append_nil] at hx
    rw [hx]
    exact List.take_prefix _ x
  · exfalso
    apply hnl
    rw [List.take_append_eq_append_take, List.take_of_length_le (by omega)] at hx
    rw [hx]
    obtain ⟨j, hj⟩ : ∃ j, m.length - x.length = j + 1 := ⟨m.length - x.length - 1, by omega⟩
    rw [hj]
    simp

theorem isPrefixOf_through_newline {m x y : List Char} (hnl : '\n' ∉ m) :
    m.isPrefixOf (x ++ '\n' :: y) = m.isPrefixOf x := by
  by_cases hp : m <+: x
  · rw [List.isPrefixOf_iff_prefix.mpr hp,
      List.isPrefixOf_iff_prefix.mpr (hp.trans (List.prefix_append x ('\n' :: y)))]
  · have h2 : ¬ m <+: (x ++ '\n' :: y) := fun hc => hp (prefix_through_newline hnl hc)
    rw [Bool.eq_iff_iff]
    constructor
    · intro hc
      exact absurd (List.isPrefixOf_iff_prefix.mp hc) h2
    · intro hc
      exact absurd (List.isPrefixOf_iff_prefix.mp hc) hp

/-- Occurrence counting distributes over a newline boundary when the
needle contains no newline: no occurrence can straddle the boundary. -/
theorem countAux_append_newline {m : List Char} (hm : m ≠ []) (hnl : '\n' ∉ m) :
    ∀ (x : List Char) (k : Nat), k ≤ x.length → ∀ y,
      countAux m (x ++ '\n' :: y) k = countAux m x k + countAux m y 0 := by
  intro x
  induction x with
  | nil =>
    intro k hk y
    have hk0 : k = 0 := Nat.le_zero.mp hk
    subst hk0
    rw [List.nil_append]
    have hnp : m.isPrefixOf ('\n' :: y) = false := by
      have hthru := isPrefixOf_through_newline hnl (x := []) (y := y)
      rw [List.nil_append] at hthru
      rw [hthru]
      cases m with
      | nil => exact absurd rfl hm
      | cons a as => rfl
    simp [countAux, hnp]
  | cons c x2 ih =>
    intro k hk y
    cases k with
    | succ j =>
      rw [List.cons_append]
      show countAux m (x2 ++ '\n' :: y) j = countAux m (c :: x2) (j + 1) + countAux m y 0
      rw [ih j (by simpa using hk) y]
      rfl
    | zero =>
      rw [List.cons_append]
      have key : m.isPrefixOf (c :: (x2 ++ '\n' :: y)) = m.isPrefixOf (c :: x2) := by
        have hthru := isPrefixOf_through_newline hnl (x := c :: x2) (y := y)
        rw [List.cons_append] at hthru
        exact hthru
      by_cases hc : m.isPrefixOf (c :: x2) = true
      · have hlen : m.length - 1 ≤ x2.length := by
          have hle := (List.isPrefixOf_iff_prefix.mp hc).length_le
          simp at hle
          omega
        show (if m.isPrefixOf (c :: (x2 ++ '\n' :: y)) then
            1 + countAux m (x2 ++ '\n' :: y) (m.length - 1)
          else countAux m (x2 ++ '\n' :: y) 0) = _
        rw [key, hc, if_pos rfl]
        show 1 + countAux m (x2 ++ '\n' :: y) (m.length - 1) =
          (if (m.isPrefixOf (c :: x2) : Bool) then 1 + countAux m x2 (m.length - 1)
            else countAux m x2 0) + countAux m y 0
        rw [hc, if_pos rfl, ih (m.length - 1) hlen y]
        omega
      · have hc2 : m.isPrefixOf (c :: x2) = false := by
          cases hb : m.isPrefixOf (c :: x2)
          · rfl
          · exact absurd hb hc
        show (if m.isPrefixOf (c :: (x2 ++ '\n' :: y)) then
            1 + countAux m (x2 ++ '\n' :: y) (m.length - 1)
          else countAux m (x2 ++ '\n' :: y) 0) = _
        rw [key, hc2]
        show countAux m (x2 ++ '\n' :: y) 0 =
          (if (m.isPrefixOf (c :: x2) : Bool) then 1 + countAux m x2 (m.length - 1)
            else countAux m x2 0) + countAux m y 0
        rw [hc2]
        show countAux m (x2 ++ '\n' :: y) 0 = countAux m x2 0 + countAux m y 0
        exact ih 0 (Nat.zero_le _) y

theorem countAux_renderBlock {m : List Char} (hm : m ≠ []) (hnl : '\n' ∉ m) (b : Block)
    (h1 : pyContains m b.1 = false) (h2 : pyContains m b.2 = false) :
    countAux m (renderBlock b) 0 =
      countAux m searchMarker 0 + countAux m sepMarker 0 + countAux m replMarker 0 := by
  rw [renderBlock]
  rw [countAux_append_newline hm hnl searchMarker 0 (Nat.zero_le _),
    countAux_append_newline hm hnl b.1 0 (Nat.zero_le _),
    countAux_append_newline hm hnl sepMarker 0 (Nat.zero_le _),
    countAux_append_newline hm hnl b.2 0 (Nat.zero_le _),
    countAux_eq_zero_of_not_contains h1, countAux_eq_zero_of_not_contains h2]
  omega

theorem countAux_renderPatch {m : List Char} (hm : m ≠ []) (hnl : '\n' ∉ m)
    (base : countAux m searchMarker 0 + countAux m sepMarker 0 + countAux m replMarker 0 = 1) :
    ∀ bs : List Block,
      (∀ b ∈ bs, pyContains m b.1 = false ∧ pyContains m b.2 = false) →
      countAux m (renderPatch bs) 0 = bs.length := by
  intro bs
  induction bs with
  | nil => intro _; rfl
  | cons b rest ih =>
    intro hgood
    have hb := hgood b (List.mem_cons_self b rest)
    cases rest with
    | nil =>
      show countAux m (renderBlock b) 0 = 1
      rw [countAux_renderBlock hm hnl b hb.1 hb.2]
      exact base
    | cons b2 rest2 =>
      show countAux m (renderBlock b ++ '\n' :: renderPatch (b2 :: rest2)) 0 = _
      rw [countAux_append_newline hm hnl (renderBlock b) 0 (Nat.zero_le _),
        countAux_renderBlock hm hnl b hb.1 hb.2, base,
        ih (fun x hx => hgood x (List.mem_cons_of_mem b hx))]
      simp
      omega

theorem slAux_nil (cur : List Char) : slAux cur [] = if cur = [] then [] else [cur.reverse] := by
  rfl
theorem slAux_nl (cur b : List Char) : slAux cur ('\n' :: b) = cur.reverse :: slAux [] b := by
  conv_lhs => rw [slAux.eq_def]
  dsimp only
  rw [if_neg (by decide : ¬ ('\n' : Char) = '\r'), if_pos (by decide : isLineBreakChar '\n' = true)]
theorem slAux_crnl (cur b : List Char) : slAux cur ('\r' :: '\n' :: b) = cur.reverse :: slAux [] b := by
  conv_lhs => rw [slAux.eq_def]
  dsimp only
  rw [if_pos rfl, if_pos rfl]
theorem slAux_cr_end (cur : List Char) : slAux cur ['\r'] = [cur.reverse] := by
  conv_lhs => rw [slAux.eq_def]
  dsimp only
  rw [if_pos rfl]
  rw [slAux_nil]
  simp
theorem slAux_cr_other (cur b : List Char) (d : Char) (hd : ¬ d = '\n') :
    slAux cur ('\r' :: d :: b) = cur.reverse :: slAux [] (d :: b) := by
  conv_lhs => rw [slAux.eq_def]
  dsimp only
  rw [if_pos rfl, if_neg hd]
theorem slAux_break (cur b : List Char) (c : Char) (h1 : ¬ c = '\r') (h2 : isLineBreakChar c = true) :
    slAux cur (c :: b) = cur.reverse :: slAux [] b := by
  conv_lhs => rw [slAux.eq_def]
  dsimp only
  rw [if_neg h1, if_pos h2]
theorem slAux_plain (cur b : List Char) (c : Char) (h1 : ¬ c = '\r') (h2 : ¬ isLineBreakChar c = true) :
    slAux cur (c :: b) = slAux (c :: cur) b := by
  conv_lhs => rw [slAux.eq_def]
  dsimp only
  rw [if_neg h1, if_neg h2]

theorem slAux_append : ∀ (n : Nat) (a : List Char), a.length ≤ n → ∀ cur b,
    slAux cur (a ++ '\n' :: b) = slAux cur (a ++ ['\n']) ++ slAux [] b := by
  intro n
  induction n with
  | zero =>
    intro a ha cur b
    have hanil : a = [] := List.length_eq_zero.mp (Nat.le_zero.mp ha)
    subst hanil
    simp only [List.nil_append]
    rw [slAux_nl, slAux_nl, slAux_nil]
    simp
  | succ n ih =>
    intro a ha cur b
    cases a with
    | nil =>
      simp only [List.nil_append]
      rw [slAux_nl, slAux_nl, slAux_nil]
      simp
    | cons c a2 =>
      by_cases hcr : c = '\r'
      · subst hcr
        cases a2 with
        | nil =>
          simp only [List.cons_append, List.nil_append]
          rw [slAux_crnl, slAux_crnl, slAux_nil]
          simp
        | cons d a3 =>
          by_cases hd : d = '\n'
          · subst hd
            simp only [List.cons_append]
            rw [slAux_crnl, slAux_crnl, ih a3 (by simp at ha; omega) [] b]
            simp
          · simp only [List.cons_append]
            rw [slAux_cr_other _ _ _ hd, slAux_cr_other _ _ _ hd]
            have hrec := ih (d :: a3) (by simp at ha ⊢; omega) [] b
            rw [List.cons_append] at hrec
            rw [hrec]
            simp
      · by_cases hlb : isLineBreakChar c = true
        · simp only [List.cons_append]
          rw [slAux_break _ _ _ hcr hlb, slAux_break _ _ _ hcr hlb,
            ih a2 (by simp at ha; omega) [] b]
          simp
        · simp only [List.cons_append]
          rw [slAux_plain _ _ _ hcr hlb, slAux_plain _ _ _ hcr hlb]
          exact ih a2 (by simp at ha; omega) (c :: cur) b

theorem slAux_piece_infix : ∀ (n : Nat) (t : List Char), t.length ≤ n → ∀ cur l,
    l ∈ slAux cur t → l <:+: (cur.reverse ++ t) := by
  intro n
  induction n with
  | zero =>
    intro t ht cur l hl
    have htnil : t = [] := List.length_eq_zero.mp (Nat.le_zero.mp ht)
    subst htnil
    rw [slAux_nil] at hl
    by_cases hc : cur = []
    · rw [if_pos hc] at hl
      simp at hl
    · rw [if_neg hc] at hl
      rw [List.mem_singleton] at hl
      subst hl
      rw [List.append_nil]
  | succ n ih =>
    intro t ht cur l hl
    cases t with
    | nil =>
      rw [slAux_nil] at hl
      by_cases hc : cur = []
      · rw [if_pos hc] at hl
        simp at hl
      · rw [if_neg hc] at hl
        rw [List.mem_singleton] at hl
        subst hl
        rw [List.append_nil]
    | cons c rest =>
      by_cases hcr : c = '\r'
      · subst hcr
        cases rest with
        | nil =>
          rw [slAux_cr_end] at hl
          rw [List.mem_singleton] at hl
          subst hl
          exact (List.prefix_append _ _).isInfix
        | cons d rest2 =>
          by_cases hd : d = '\n'
          · subst hd
            rw [slAux_crnl] at hl
            rcases List.mem_cons.mp hl with rfl | hmem
            · exact (List.prefix_append _ _).isInfix
            · have hrec := ih rest2 (by simp at ht; omega) [] l hmem
              simp only [List.reverse_nil, List.nil_append] at hrec
              exact hrec.trans ⟨cur.reverse ++ ['\r', '\n'], [], by simp⟩
          · rw [slAux_cr_other _ _ _ hd] at hl
            rcases List.mem_cons.mp hl with rfl | hmem
            · exact (List.prefix_append _ _).isInfix
            · have hrec := ih (d :: rest2) (by simp at ht ⊢; omega) [] l hmem
              simp only [List.reverse_nil, List.nil_append] at hrec
              exact hrec.trans ⟨cur.reverse ++ ['\r'], [], by simp⟩
      · by_cases hlb : isLineBreakChar c = true
        · rw [slAux_break _ _ _ hcr hlb] at hl
          rcases List.mem_cons.mp hl with rfl | hmem
          · exact (List.prefix_append _ _).isInfix
          · have hrec := ih rest (by simp at ht; omega) [] l hmem
            simp only [List.reverse_nil, List.nil_append] at hrec
            exact hrec.trans ⟨cur.reverse ++ [c], [], by simp⟩
        · rw [slAux_plain _ _ _ hcr hlb] at hl
          have hrec := ih rest (by simp at ht; omega) (c :: cur) l hl
          rw [List.reverse_cons, List.append_assoc] at hrec
          simpa using hrec

theorem pyStrip_isInfix (l : List Char) : pyStrip l <:+: l := by
  refine ⟨l.takeWhile isPySpace,
    ((l.dropWhile isPySpace).reverse.takeWhile isPySpace).reverse, ?_⟩
  conv_rhs => rw [← List.takeWhile_append_dropWhile isPySpace l]
  rw [List.append_assoc]
  congr 1
  rw [pyStrip]
  conv_rhs => rw [← List.reverse_reverse (l.dropWhile isPySpace)]
  conv_rhs => rw [← List.takeWhile_append_dropWhile isPySpace (l.dropWhile isPySpace).reverse]
  rw [List.reverse_append]

theorem markerLines_append (a b : List Char) :
    markerLines (a ++ '\n' :: b) = markerLines (a ++ ['\n']) ++ markerLines b := by
  rw [markerLines, markerLines, markerLines, pySplitlines, pySplitlines, pySplitlines,
    slAux_append a.length a le_rfl [] b, List.map_append, List.filter_append]

theorem markerLines_of_clean {s : List Char} (h : containsAnyMarker s = false) :
    markerLines (s ++ ['\n']) = [] := by
  obtain ⟨h1, h2, h3⟩ := containsAnyMarker_false_elim h
  rw [markerLines, List.filter_eq_nil_iff]
  intro x hx
  rw [List.mem_map] at hx
  obtain ⟨l, hlmem, rfl⟩ := hx
  have hinf : l <:+: (s ++ ['\n']) := by
    have := slAux_piece_infix (s ++ ['\n']).length (s ++ ['\n']) le_rfl [] l hlmem
    simpa using this
  intro hmark
  simp only [Bool.or_eq_true, decide_eq_true_eq] at hmark
  have hstrip := pyStrip_isInfix l
  have key : ∀ m : List Char, m ≠ [] → '\n' ∉ m → pyContains m s = false →
      pyStrip l = m → False := by
    intro m hm hnl hclean hem
    have hml : m <:+: l := by
      rw [← hem]
      exact hstrip
    have hmi : m <:+: (s ++ ['\n']) := hml.trans hinf
    have hcont := pyContains_of_isInfix hmi
    rcases pyContains_snoc_cases hcont with hin | hsuf
    · rw [hclean] at hin
      exact Bool.false_ne_true hin
    · obtain ⟨mp, hmp, _⟩ := suffix_snoc_struct hsuf hm
      exact hnl (by rw [hmp]; simp)
  rcases hmark with (hm | hm) | hm
  · exact key searchMarker (by decide) (by decide) h1 hm
  · exact key sepMarker (by decide) (by decide) h2 hm
  · exact key replMarker (by decide) (by decide) h3 hm

theorem markerLines_searchNl : markerLines (searchMarker ++ ['\n']) = [searchMarker] := by decide

theorem markerLines_sepNl : markerLines (sepMarker ++ ['\n']) = [sepMarker] := by decide

theorem markerLines_replNl : markerLines (replMarker ++ ['\n']) = [replMarker] := by decide

theorem markerLines_repl : markerLines replMarker = [replMarker] := by decide

/-- `n` repetitions of the marker triple. -/
def tripleRep : Nat → List (List Char)
  | 0 => []
  | n + 1 => searchMarker :: sepMarker :: replMarker :: tripleRep n

theorem markerLines_renderBlock (b : Block) (hb : goodBlock b) :
    markerLines (renderBlock b) = [searchMarker, sepMarker, replMarker] := by
  rw [renderBlock, markerLines_append searchMarker, markerLines_searchNl,
    markerLines_append b.1, markerLines_of_clean hb.1,
    markerLines_append sepMarker, markerLines_sepNl,
    markerLines_append b.2, markerLines_of_clean hb.2, markerLines_repl]
  rfl

theorem markerLines_renderBlockNl (b : Block) (hb : goodBlock b) :
    markerLines (renderBlock b ++ ['\n']) = [searchMarker, sepMarker, replMarker] := by
  have hassoc : renderBlock b ++ ['\n'] =
      searchMarker ++ '\n' :: (b.1 ++ '\n' :: (sepMarker ++ '\n' ::
        (b.2 ++ '\n' :: (replMarker ++ ['\n'])))) := by
    rw [renderBlock]
    simp
  rw [hassoc, markerLines_append searchMarker, markerLines_searchNl,
    markerLines_append b.1, markerLines_of_clean hb.1,
    markerLines_append sepMarker, markerLines_sepNl,
    markerLines_append b.2, markerLines_of_clean hb.2, markerLines_replNl]
  rfl

theorem markerLines_renderPatch : ∀ bs : List Block, (∀ b ∈ bs, goodBlock b) →
    markerLines (renderPatch bs) = tripleRep bs.length := by
  intro bs
  induction bs with
  | nil => intro _; decide
  | cons b rest ih =>
    intro hgood
    have hb := hgood b (List.mem_cons_self b rest)
    cases rest with
    | nil =>
      show markerLines (renderBlock b) = tripleRep 1
      rw [markerLines_renderBlock b hb]
      rfl
    | cons b2 rest2 =>
      show markerLines (renderBlock b ++ '\n' :: renderPatch (b2 :: rest2)) = _
      rw [markerLines_append (renderBlock b), markerLines_renderBlockNl b hb,
        ih (fun x hx => hgood x (List.mem_cons_of_mem b hx))]
      rfl

theorem seqCheck_tripleRep : ∀ (n i : Nat), seqCheck i (tripleRep n) = none := by
  intro n
  induction n with
  | zero => intro i; rfl
  | succ n ih =>
    intro i
    show seqCheck i (searchMarker :: sepMarker :: replMarker :: tripleRep n) = none
    rw [seqCheck, if_pos ⟨rfl, rfl, rfl⟩]
    exact ih (i + 3)

theorem validate_renderPatch (bs : List Block) (hgood : ∀ b ∈ bs, goodBlock b) :
    validate_block_integrity (renderPatch bs) = .ok () := by
  have hgS : ∀ b ∈ bs, pyContains searchMarker b.1 = false ∧
      pyContains searchMarker b.2 = false := fun b hb =>
    ⟨(containsAnyMarker_false_elim (hgood b hb).1).1,
      (containsAnyMarker_false_elim (hgood b hb).2).1⟩
  have hgP : ∀ b ∈ bs, pyContains sepMarker b.1 = false ∧
      pyContains sepMarker b.2 = false := fun b hb =>
    ⟨(containsAnyMarker_false_elim (hgood b hb).1).2.1,
      (containsAnyMarker_false_elim (hgood b hb).2).2.1⟩
  have hgR : ∀ b ∈ bs, pyContains replMarker b.1 = false ∧
      pyContains replMarker b.2 = false := fun b hb =>
    ⟨(containsAnyMarker_false_elim (hgood b hb).1).2.2,
      (containsAnyMarker_false_elim (hgood b hb).2).2.2⟩
  have hcS : pyCount searchMarker (renderPatch bs) = bs.length := by
    rw [pyCount, if_neg (by decide : ¬ searchMarker = [])]
    exact countAux_renderPatch (by decide) (by decide) (by decide) bs hgS
  have hcP : pyCount sepMarker (renderPatch bs) = bs.length := by
    rw [pyCount, if_neg (by decide : ¬ sepMarker = [])]
    exact countAux_renderPatch (by decide) (by decide) (by decide) bs hgP
  have hcR : pyCount replMarker (renderPatch bs) = bs.length := by
    rw [pyCount, if_neg (by decide : ¬ replMarker = [])]
    exact countAux_renderPatch (by decide) (by decide) (by decide) bs hgR
  rw [validate_block_integrity]
  rw [if_neg (by rw [hcS, hcP, hcR]; simp)]
  rw [markerLines_renderPatch bs hgood, seqCheck_tripleRep bs.length 0]
  rw [nestedCheck_none (fun s hsmem =>
    pySplit_pieces (by decide) (renderPatch bs) s (List.drop_subset 1 _ hsmem)) 1]

theorem splitOnce_prefix_self {sep : List Char} (hsep : sep ≠ []) (t : List Char) :
    splitOnce sep (sep ++ t) = some ([], t) := by
  cases sep with
  | nil => exact absurd rfl hsep
  | cons c sep2 =>
    rw [List.cons_append, splitOnce,
      if_pos (List.isPrefixOf_iff_prefix.mpr ⟨t, by simp⟩)]
    simp [List.drop_left]

theorem splitOnce_cons_skip {sep X : List Char} {c : Char} (h : ¬ sep <+: (c :: X)) :
    splitOnce sep (c :: X) = (splitOnce sep X).map (fun p => (c :: p.1, p.2)) := by
  rw [splitOnce, if_neg (fun hb => h (List.isPrefixOf_iff_prefix.mp hb))]
  cases hsp : splitOnce sep X with
  | none => rfl
  | some p => rfl

theorem splitOnce_after (sep : List Char) (hsep : sep ≠ []) :
    ∀ x t, (∀ x2, x2 <:+ x → x2 ≠ [] → ¬ sep <+: (x2 ++ sep ++ t)) →
      splitOnce sep (x ++ sep ++ t) = some (x, t) := by
  intro x
  induction x with
  | nil =>
    intro t _
    rw [List.nil_append]
    exact splitOnce_prefix_self hsep t
  | cons c x2 ih =>
    intro t hH
    have hnp : ¬ sep <+: ((c :: x2) ++ sep ++ t) :=
      hH (c :: x2) (List.suffix_refl _) (List.cons_ne_nil c x2)
    rw [List.cons_append, List.cons_append] at hnp ⊢
    rw [splitOnce_cons_skip hnp]
    have hrec := ih t (fun y hy hne => hH y (hy.trans (List.suffix_cons c x2)) hne)
    rw [hrec]
    rfl

theorem pyContains_mono_of_isInfix {m x2 x : List Char} (hsub : x2 <:+: x)
    (hcl : pyContains m x = false) : pyContains m x2 = false := by
  cases hb : pyContains m x2 with
  | false => rfl
  | true =>
    have := pyContains_of_isInfix ((isInfix_of_pyContains hb).trans hsub)
    rw [hcl] at this
    exact absurd this Bool.false_ne_true

theorem noStraddle_nlRepl {x : List Char} (hcl : pyContains replMarker x = false)
    (t : List Char) :
    ∀ x2, x2 <:+ x → x2 ≠ [] → ¬ nlRepl <+: (x2 ++ nlRepl ++ t) := by
  intro x2 hsuf hne hp
  have hx2cl : pyContains replMarker x2 = false :=
    pyContains_mono_of_isInfix hsuf.isInfix hcl
  by_cases hlen : nlRepl.length ≤ x2.length
  · have hx := List.prefix_iff_eq_take.mp hp
    rw [List.append_assoc, List.take_append_eq_append_take,
      Nat.sub_eq_zero_of_le hlen, List.take_zero, List.append_nil] at hx
    have hpre : nlRepl <+: x2 := hx ▸ List.take_prefix _ x2
    have hstep : replMarker <:+: nlRepl := ⟨['\n'], [], by simp [nlRepl]⟩
    have hinf : replMarker <:+: x2 := List.IsInfix.trans hstep hpre.isInfix
    rw [pyContains_of_isInfix hinf] at hx2cl
    simp at hx2cl
  · have hx := List.prefix_iff_eq_take.mp hp
    rw [List.append_assoc, List.take_append_eq_append_take,
      List.take_of_length_le (by omega), List.take_append_of_le_length (by omega)] at hx
    generalize hwdef : List.take (nlRepl.length - x2.length) nlRepl = w at hx
    have hw_pre : w <+: nlRepl := hwdef ▸ List.take_prefix _ _
    have hw_len : w.length = nlRepl.length - x2.length := by
      rw [← hwdef, List.length_take]
      omega
    have hw_ne : w ≠ [] := by
      intro he
      rw [he] at hw_len
      simp at hw_len
      omega
    have hw_suf : w <:+ nlRepl := ⟨x2, hx.symm⟩
    obtain ⟨d, w2, rfl⟩ : ∃ d w2, w = d :: w2 := by
      cases w with
      | nil => exact absurd rfl hw_ne
      | cons d w2 => exact ⟨d, w2, rfl⟩
    have hdw : d = '\n' ∧ w2 <+: replMarker := by
      have hpre2 := hw_pre
      rw [show nlRepl = '\n' :: replMarker from rfl] at hpre2
      exact List.cons_prefix_cons.mp hpre2
    rcases List.suffix_cons_iff.mp hw_suf with heq | htail
    · have hwfull : (d :: w2).length = nlRepl.length := congrArg List.length heq
      have hzero : x2.length = 0 := by
        rw [hwfull] at hw_len
        omega
      exact hne (List.length_eq_zero.mp hzero)
    · have hmemr : '\n' ∈ replMarker :=
        htail.subset (by rw [← hdw.1]; exact List.mem_cons_self d w2)
      revert hmemr
      decide

theorem noStraddle_nlSepNl {x : List Char} (hcl : pyContains sepMarker x = false)
    (t : List Char) :
    ∀ x2, x2 <:+ x → x2 ≠ [] → ¬ nlSepNl <+: (x2 ++ nlSepNl ++ t) := by
  intro x2 hsuf hne hp
  have hx2cl : pyContains sepMarker x2 = false :=
    pyContains_mono_of_isInfix hsuf.isInfix hcl
  by_cases hlen : nlSepNl.length ≤ x2.length
  · have hx := List.prefix_iff_eq_take.mp hp
    rw [List.append_assoc, List.take_append_eq_append_take,
      Nat.sub_eq_zero_of_le hlen, List.take_zero, List.append_nil] at hx
    have hpre : nlSepNl <+: x2 := hx ▸ List.take_prefix _ x2
    have hstep : sepMarker <:+: nlSepNl := ⟨['\n'], ['\n'], by simp [nlSepNl]⟩
    have hinf : sepMarker <:+: x2 := List.IsInfix.trans hstep hpre.isInfix
    rw [pyContains_of_isInfix hinf] at hx2cl
    simp at hx2cl
  · have hx := List.prefix_iff_eq_take.mp hp
    rw [List.append_assoc, List.take_append_eq_append_take,
      List.take_of_length_le (by omega), List.take_append_of_le_length (by omega)] at hx
    generalize hwdef : List.take (nlSepNl.length - x2.length) nlSepNl = w at hx
    have hw_pre : w <+: nlSepNl := hwdef ▸ List.take_prefix _ _
    have hw_len : w.length = nlSepNl.length - x2.length := by
      rw [← hwdef, List.length_take]
      omega
    have hw_ne : w ≠ [] := by
      intro he
      rw [he] at hw_len
      simp at hw_len
      omega
    have hw_suf : w <:+ nlSepNl := ⟨x2, hx.symm⟩
    obtain ⟨d, w2, rfl⟩ : ∃ d w2, w = d :: w2 := by
      cases w with
      | nil => exact absurd rfl hw_ne
      | cons d w2 => exact ⟨d, w2, rfl⟩
    have hdw : d = '\n' ∧ w2 <+: sepMarker ++ ['\n'] := by
      have hpre2 := hw_pre
      rw [show nlSepNl = '\n' :: (sepMarker ++ ['\n']) from rfl] at hpre2
      exact List.cons_prefix_cons.mp hpre2
    rcases List.suffix_cons_iff.mp hw_suf with heq | htail
    · have hwfull : (d :: w2).length = nlSepNl.length := congrArg List.length heq
      have hzero : x2.length = 0 := by
        rw [hwfull] at hw_len
        omega
      exact hne (List.length_eq_zero.mp hzero)
    · obtain ⟨w3, hw3, hw3suf⟩ := suffix_snoc_struct htail hw_ne
      rcases List.eq_nil_or_concat w3 with rfl | ⟨w4, e, rfl⟩
      · rw [List.nil_append] at hw3
        have hx2eq : x2 = '\n' :: sepMarker := by
          rw [hw3] at hx
          have hshape : (nlSepNl : List Char) = ('\n' :: sepMarker) ++ ['\n'] := by
            simp [nlSepNl]
          rw [hshape] at hx
          exact (List.append_inj' hx rfl).1.symm
        have hinf : sepMarker <:+: x2 := by
          rw [hx2eq]
          exact ⟨['\n'], [], by simp⟩
        rw [pyContains_of_isInfix hinf] at hx2cl
        simp at hx2cl
      · have hmem : '\n' ∈ (w4.concat e : List Char) := by
          rw [List.concat_eq_append] at hw3 ⊢
          cases w4 with
          | nil =>
            rw [List.nil_append] at hw3 ⊢
            have hde : d = e := (List.cons.inj hw3).1
            rw [← hde, hdw.1]
            exact List.mem_singleton.mpr rfl
          | cons f w5 =>
            rw [List.cons_append] at hw3
            have hdf : d = f := (List.cons.inj hw3).1
            rw [List.cons_append]
            rw [← hdf, hdw.1]
            exact List.mem_cons_self '\n' _
        have hmem2 : '\n' ∈ sepMarker := hw3suf.subset hmem
        revert hmem2
        decide

theorem regexBlocksAux_nil (fuel : Nat) : regexBlocksAux fuel [] = [] := by
  cases fuel with
  | zero => rfl
  | succ f => rfl

theorem regexBlocksAux_newline (fuel : Nat) (X : List Char) :
    regexBlocksAux fuel ('\n' :: X) = regexBlocksAux fuel X := by
  cases fuel with
  | zero => rfl
  | succ f =>
    have hnp : ¬ searchNl <+: ('\n' :: X) := by
      intro hc
      obtain ⟨u, hu⟩ := hc
      have hhead : ('<' : Char) = '\n' := by
        have h0 : (searchNl ++ u).head? = some '\n' := by rw [hu]; rfl
        rw [show (searchNl : List Char) = '<' :: searchNl.tail from rfl] at h0
        simp at h0
      exact absurd hhead (by decide)
    conv_lhs => rw [regexBlocksAux.eq_def]
    conv_rhs => rw [regexBlocksAux.eq_def]
    dsimp only
    rw [splitOnce_cons_skip hnp]
    cases hsp : splitOnce searchNl X with
    | none => rfl
    | some p => rfl

theorem regexBlocksAux_renderPatch :
    ∀ (bs : List Block) (fuel : Nat), bs.length < fuel → (∀ b ∈ bs, goodBlock b) →
      regexBlocksAux fuel (renderPatch bs) = bs := by
  intro bs
  induction bs with
  | nil =>
    intro fuel _ _
    exact regexBlocksAux_nil fuel
  | cons b rest ih =>
    intro fuel hfuel hgood
    obtain ⟨f, rfl⟩ : ∃ f, fuel = f + 1 := ⟨fuel - 1, by omega⟩
    have hb := hgood b (List.mem_cons_self b rest)
    obtain ⟨hb1S, hb1P, hb1R⟩ := containsAnyMarker_false_elim hb.1
    obtain ⟨hb2S, hb2P, hb2R⟩ := containsAnyMarker_false_elim hb.2
    have key : ∀ T : List Char,
        regexBlocksAux (f + 1) (renderBlock b ++ T) = (b.1, b.2) :: regexBlocksAux f T := by
      intro T
      have hshape : renderBlock b ++ T =
          searchNl ++ (b.1 ++ nlSepNl ++ (b.2 ++ nlRepl ++ T)) := by
        rw [renderBlock_flat]
        simp [List.append_assoc]
      conv_lhs => rw [regexBlocksAux.eq_def]
      dsimp only
      rw [hshape, splitOnce_prefix_self (by decide) _]
      dsimp only
      rw [splitOnce_after nlSepNl (by decide) b.1 (b.2 ++ nlRepl ++ T)
        (fun x2 hx2 hne => noStraddle_nlSepNl hb1P (b.2 ++ nlRepl ++ T) x2 hx2 hne)]
      dsimp only
      rw [splitOnce_after nlRepl (by decide) b.2 T
        (fun x2 hx2 hne => noStraddle_nlRepl hb2R T x2 hx2 hne)]
    cases rest with
    | nil =>
      show regexBlocksAux (f + 1) (renderBlock b) = [b]
      have := key []
      rw [List.append_nil] at this
      rw [this, regexBlocksAux_nil f]
    | cons b2 rest2 =>
      show regexBlocksAux (f + 1) (renderBlock b ++ '\n' :: renderPatch (b2 :: rest2)) = _
      rw [key ('\n' :: renderPatch (b2 :: rest2)), regexBlocksAux_newline f _,
        ih f (by simp at hfuel ⊢; omega) (fun x hx => hgood x (List.mem_cons_of_mem b hx))]

theorem checkBlocks_ok : ∀ (bs : List Block) (i : Nat), (∀ b ∈ bs, goodBlock b) →
    checkBlocks i bs = .ok bs := by
  intro bs
  induction bs with
  | nil => intro i _; rfl
  | cons b rest ih =>
    intro i hgood
    have hb := hgood b (List.mem_cons_self b rest)
    obtain ⟨b1, b2⟩ := b
    show checkBlocks i ((b1, b2) :: rest) = _
    rw [checkBlocks]
    rw [hb.1, hb.2]
    rw [ih (i + 1) (fun x hx => hgood x (List.mem_cons_of_mem _ hx))]
    rfl

theorem renderPatch_length_ge : ∀ bs : List Block, bs.length ≤ (renderPatch bs).length := by
  intro bs
  induction bs with
  | nil => simp [renderPatch]
  | cons b rest ih =>
    cases rest with
    | nil =>
      show 1 ≤ (renderBlock b).length
      rw [renderBlock]
      simp
      omega
    | cons b2 rest2 =>
      show (b :: b2 :: rest2).length ≤ (renderBlock b ++ '\n' :: renderPatch (b2 :: rest2)).length
      rw [List.length_append]
      simp only [List.length_cons] at ih ⊢
      have : 1 ≤ (renderBlock b).length := by
        rw [renderBlock]
        simp
        omega
      omega

theorem parse_renderPatch (bs : List Block) (hne : bs ≠ [])
    (hgood : ∀ b ∈ bs, goodBlock b) :
    parse_search_replace_blocks (renderPatch bs) = .ok bs := by
  rw [parse_search_replace_blocks, validate_renderPatch bs hgood]
  dsimp only
  have hms : regexBlocks (renderPatch bs) = bs := by
    rw [regexBlocks]
    exact regexBlocksAux_renderPatch bs ((renderPatch bs).length + 1)
      (by have := renderPatch_length_ge bs; omega) hgood
  rw [hms]
  rw [if_neg (by simpa [List.isEmpty_iff] using hne)]
  exact checkBlocks_ok bs 1 hgood

/-- C3: parsing the canonical rendering of any nonempty list of
marker-free blocks returns exactly those pairs in order, and any input
whose three marker substring counts are not all equal is rejected with
the unbalanced-markers validation error (raised before any extraction,
as validation runs first). -/
theorem parse_blocks_roundtrip_and_unbalanced :
    (∀ bs : List Block, bs ≠ [] → (∀ b ∈ bs, goodBlock b) →
      parse_search_replace_blocks (renderPatch bs) = .ok bs) ∧
    (∀ patch : List Char,
      ¬(pyCount searchMarker patch = pyCount sepMarker patch ∧
        pyCount sepMarker patch = pyCount replMarker patch) →
      parse_search_replace_blocks patch = .error (.validation
        (.unbalanced (pyCount searchMarker patch) (pyCount sepMarker patch)
          (pyCount replMarker patch)))) := by
  constructor
  · exact fun bs hne hgood => parse_renderPatch bs hne hgood
  · intro patch hbal
    rw [parse_search_replace_blocks, validate_block_integrity]
    rw [if_pos hbal]

/-- Witness for C3: a concrete two-block render parses back to its two
pairs, and a patch missing its REPLACE marker is rejected as
unbalanced. -/
theorem parse_blocks_roundtrip_and_unbalanced_witness :
    parse_search_replace_blocks (renderPatch [("a".data, "b".data), ("c".data, "d".data)]) =
      .ok [("a".data, "b".data), ("c".data, "d".data)] ∧
    (¬(pyCount searchMarker "<<<<<<< SEARCH\ncontent\n=======\nreplacement".data =
        pyCount sepMarker "<<<<<<< SEARCH\ncontent\n=======\nreplacement".data ∧
      pyCount sepMarker "<<<<<<< SEARCH\ncontent\n=======\nreplacement".data =
        pyCount replMarker "<<<<<<< SEARCH\ncontent\n=======\nreplacement".data)) ∧
    parse_search_replace_blocks "<<<<<<< SEARCH\ncontent\n=======\nreplacement".data =
      .error (.validation (.unbalanced 1 1 0)) := by
  refine ⟨?_, by decide, ?_⟩
  · exact parse_blocks_roundtrip_and_unbalanced.1
      [("a".data, "b".data), ("c".data, "d".data)] (by decide)
      (by intro b hb; fin_cases hb <;> exact ⟨rfl, rfl⟩)
  · have h := parse_blocks_roundtrip_and_unbalanced.2
      "<<<<<<< SEARCH\ncontent\n=======\nreplacement".data (by decide)
    rw [h]
    decide

end PatchMcp
